import Mathlib

/-
Verification of the structural-extraction core of the briefly repository:
the file categorizer and stats aggregator (src/lib/scanner.js), the
multi-language parser (src/lib/parser.js), and the project aggregator
(src/lib/analyzer.js).  JavaScript strings are modelled as Lean strings
(operating on their character lists), JS objects used as string-keyed
maps are modelled as insertion-ordered association lists, and the
filesystem / external parser boundaries are modelled as explicit inputs.
-/

namespace Briefly

/-! ## Generic string helpers (JS string primitives used by the source) -/

/-- JS `str.split(c)` for a one-character separator: splits into the list of
chunks between occurrences of the separator; always returns at least one
(possibly empty) chunk. -/
def splitOnChar (c : Char) : List Char → List (List Char)
  | [] => [[]]
  | x :: xs =>
    match splitOnChar c xs with
    | [] => [[x]]
    | r :: rs => if x = c then [] :: r :: rs else (x :: r) :: rs

/-- JS `haystack.includes(needle)` on character lists. -/
def containsSubChars (needle : List Char) : List Char → Bool
  | [] => needle.isEmpty
  | x :: xs => needle.isPrefixOf (x :: xs) || containsSubChars needle xs

/-- JS `haystack.includes(needle)` on strings. -/
def strContains (haystack needle : String) : Bool :=
  containsSubChars needle.data haystack.data

/-- The characters matched by the JS regex class back-slash-s, restricted to
ASCII (the Unicode space characters are not modelled; none of the verified
properties depend on them). -/
def jsSpace (c : Char) : Bool :=
  c = ' ' || c = '\t' || c = '\n' || c = '\r' || c = '\x0b' || c = '\x0c'

/-- JS `str.trim()` on character lists (ASCII whitespace). -/
def trimChars (l : List Char) : List Char :=
  ((l.dropWhile jsSpace).reverse.dropWhile jsSpace).reverse

/-- Strip an expected literal from the front of a character list, returning
the remainder when the literal is present. -/
def stripLit : List Char → List Char → Option (List Char)
  | [], l => some l
  | _ :: _, [] => none
  | p :: ps, x :: xs => if x = p then stripLit ps xs else none

/-! ## Path helpers (Node `path` functions as used by the source on
forward-slash paths without trailing separators) -/

/-- Node `path.basename`, for paths without trailing separators: the part
after the last slash. -/
def pathBasename (p : String) : String :=
  String.mk (p.data.reverse.takeWhile (· ≠ '/')).reverse

/-- Node `path.dirname`, for paths without trailing separators: everything
before the last slash, with the usual special cases (no slash gives a dot,
a single leading slash gives the root). -/
def pathDirname (p : String) : String :=
  let rev := p.data.reverse
  let rest := rev.dropWhile (· ≠ '/')
  match rest with
  | [] => "."
  | _ :: tl => if tl = [] then "/" else String.mk tl.reverse

/-- Node `path.extname` for ordinary file names: the suffix of the basename
from its last dot, or empty when the basename has no dot or only a leading
dot (the dot-only names are special-cased as Node does). -/
def pathExtname (p : String) : String :=
  let bn := (pathBasename p).data
  if bn = ['.'] || bn = ['.', '.'] then ""
  else
    let afterDot := bn.reverse.takeWhile (· ≠ '.')
    if afterDot.length = bn.length then ""
    else if afterDot.length + 1 = bn.length then ""
    else String.mk (bn.drop (bn.length - (afterDot.length + 1)))

/-! ## File categorizer (`categorizeFiles`, src/lib/scanner.js) -/

/-- The six category lists produced by `categorizeFiles`. -/
structure Categories where
  code : List String
  config : List String
  docs : List String
  tests : List String
  assets : List String
  other : List String
deriving Repr, DecidableEq

def emptyCategories : Categories := ⟨[], [], [], [], [], []⟩

def codeExtensions : List String :=
  [".js", ".ts", ".jsx", ".tsx", ".py", ".rb", ".go", ".java", ".c", ".cpp", ".rs"]

def configFiles : List String :=
  ["package.json", "tsconfig.json", ".eslintrc", ".prettierrc",
   "webpack.config.js", "vite.config.js"]

def docExtensions : List String := [".md", ".txt", ".rst", ".adoc"]

def testPatterns : List String := [".test.", ".spec.", "__tests__", "test/", "tests/"]

def assetExtensions : List String :=
  [".png", ".jpg", ".jpeg", ".gif", ".svg", ".ico", ".woff", ".woff2", ".ttf"]

/-- First rule of the categorizer chain: the path contains one of the
test-marker substrings. -/
def isTestFile (f : String) : Bool := testPatterns.any (fun p => strContains f p)

/-- Second rule: the extension is a known source-code extension. -/
def isCodeFile (f : String) : Bool := codeExtensions.contains (pathExtname f)

/-- Third rule: the basename contains a known config filename, or the
extension is .json / .yaml / .yml. -/
def isConfigFile (f : String) : Bool :=
  configFiles.any (fun c => strContains (pathBasename f) c)
    || pathExtname f = ".json" || pathExtname f = ".yaml" || pathExtname f = ".yml"

/-- Fourth rule: the extension is a known documentation extension. -/
def isDocFile (f : String) : Bool := docExtensions.contains (pathExtname f)

/-- Fifth rule: the extension is a known binary/asset extension. -/
def isAssetFile (f : String) : Bool := assetExtensions.contains (pathExtname f)

/-- One step of the categorizer loop body: push the file onto the list of the
first matching category, in the source order of the if/else chain. -/
def categorizeOne (f : String) (cat : Categories) : Categories :=
  if isTestFile f then { cat with tests := cat.tests ++ [f] }
  else if isCodeFile f then { cat with code := cat.code ++ [f] }
  else if isConfigFile f then { cat with config := cat.config ++ [f] }
  else if isDocFile f then { cat with docs := cat.docs ++ [f] }
  else if isAssetFile f then { cat with assets := cat.assets ++ [f] }
  else { cat with other := cat.other ++ [f] }

def categorizeGo : List String → Categories → Categories
  | [], cat => cat
  | f :: fs, cat => categorizeGo fs (categorizeOne f cat)

/-- The categorizer `categorizeFiles`: iterate the if/else chain over the
input list, pushing each file onto exactly one category list. -/
def categorizeFiles (files : List String) : Categories :=
  categorizeGo files emptyCategories

/-- The six categories as an enumeration, used to state partition facts. -/
inductive FileCategory where
  | code | config | docs | tests | assets | other
deriving Repr, DecidableEq

/-- Per-file classifier following the claimed precedence (first match wins):
tests, then code, then config, then docs, then assets, then other. -/
def classifyFile (f : String) : FileCategory :=
  if isTestFile f then .tests
  else if isCodeFile f then .code
  else if isConfigFile f then .config
  else if isDocFile f then .docs
  else if isAssetFile f then .assets
  else .other

/-- Project a `Categories` record at a category tag. -/
def catList (c : FileCategory) (cat : Categories) : List String :=
  match c with
  | .code => cat.code
  | .config => cat.config
  | .docs => cat.docs
  | .tests => cat.tests
  | .assets => cat.assets
  | .other => cat.other

/-- Effective predicate for landing in `tests`: the first rule fires. -/
def pTests (f : String) : Bool := isTestFile f

/-- Effective predicate for landing in `code`: not a test, known code extension. -/
def pCode (f : String) : Bool := !isTestFile f && isCodeFile f

/-- Effective predicate for landing in `config`. -/
def pConfig (f : String) : Bool := !isTestFile f && !isCodeFile f && isConfigFile f

/-- Effective predicate for landing in `docs`. -/
def pDocs (f : String) : Bool :=
  !isTestFile f && !isCodeFile f && !isConfigFile f && isDocFile f

/-- Effective predicate for landing in `assets`. -/
def pAssets (f : String) : Bool :=
  !isTestFile f && !isCodeFile f && !isConfigFile f && !isDocFile f && isAssetFile f

/-- Effective predicate for landing in `other`: no earlier rule fires. -/
def pOther (f : String) : Bool :=
  !isTestFile f && !isCodeFile f && !isConfigFile f && !isDocFile f && !isAssetFile f

theorem categorizeGo_eq (fs : List String) : ∀ cat : Categories,
    categorizeGo fs cat =
      ⟨cat.code ++ fs.filter pCode, cat.config ++ fs.filter pConfig,
       cat.docs ++ fs.filter pDocs, cat.tests ++ fs.filter pTests,
       cat.assets ++ fs.filter pAssets, cat.other ++ fs.filter pOther⟩ := by
  induction fs with
  | nil => intro cat; simp [categorizeGo]
  | cons f fs ih =>
    intro cat
    simp only [categorizeGo]
    rw [ih]
    cases h1 : isTestFile f with
    | true =>
      simp [categorizeOne, h1, pTests, pCode, pConfig, pDocs, pAssets, pOther,
        List.filter_cons]
    | false =>
      cases h2 : isCodeFile f with
      | true =>
        simp [categorizeOne, h1, h2, pTests, pCode, pConfig, pDocs, pAssets, pOther,
          List.filter_cons]
      | false =>
        cases h3 : isConfigFile f with
        | true =>
          simp [categorizeOne, h1, h2, h3, pTests, pCode, pConfig, pDocs, pAssets,
            pOther, List.filter_cons]
        | false =>
          cases h4 : isDocFile f with
          | true =>
            simp [categorizeOne, h1, h2, h3, h4, pTests, pCode, pConfig, pDocs,
              pAssets, pOther, List.filter_cons]
          | false =>
            cases h5 : isAssetFile f with
            | true =>
              simp [categorizeOne, h1, h2, h3, h4, h5, pTests, pCode, pConfig,
                pDocs, pAssets, pOther, List.filter_cons]
            | false =>
              simp [categorizeOne, h1, h2, h3, h4, h5, pTests, pCode, pConfig,
                pDocs, pAssets, pOther, List.filter_cons]

theorem categorizeFiles_filter (files : List String) :
    categorizeFiles files =
      ⟨files.filter pCode, files.filter pConfig, files.filter pDocs,
       files.filter pTests, files.filter pAssets, files.filter pOther⟩ := by
  simpa [categorizeFiles, emptyCategories] using categorizeGo_eq files emptyCategories

/-- Exactly one of the six chain predicates holds for every path. -/
theorem chain_partition (f : String) :
    (pTests f = true ∧ pCode f = false ∧ pConfig f = false ∧ pDocs f = false
        ∧ pAssets f = false ∧ pOther f = false)
    ∨ (pTests f = false ∧ pCode f = true ∧ pConfig f = false ∧ pDocs f = false
        ∧ pAssets f = false ∧ pOther f = false)
    ∨ (pTests f = false ∧ pCode f = false ∧ pConfig f = true ∧ pDocs f = false
        ∧ pAssets f = false ∧ pOther f = false)
    ∨ (pTests f = false ∧ pCode f = false ∧ pConfig f = false ∧ pDocs f = true
        ∧ pAssets f = false ∧ pOther f = false)
    ∨ (pTests f = false ∧ pCode f = false ∧ pConfig f = false ∧ pDocs f = false
        ∧ pAssets f = true ∧ pOther f = false)
    ∨ (pTests f = false ∧ pCode f = false ∧ pConfig f = false ∧ pDocs f = false
        ∧ pAssets f = false ∧ pOther f = true) := by
  unfold pTests pCode pConfig pDocs pAssets pOther
  cases h1 : isTestFile f <;> cases h2 : isCodeFile f <;> cases h3 : isConfigFile f
    <;> cases h4 : isDocFile f <;> cases h5 : isAssetFile f <;> simp

/-- The per-file classifier agrees with each chain predicate. -/
theorem classify_iff (f : String) :
    (classifyFile f = .tests ↔ pTests f = true)
    ∧ (classifyFile f = .code ↔ pCode f = true)
    ∧ (classifyFile f = .config ↔ pConfig f = true)
    ∧ (classifyFile f = .docs ↔ pDocs f = true)
    ∧ (classifyFile f = .assets ↔ pAssets f = true)
    ∧ (classifyFile f = .other ↔ pOther f = true) := by
  unfold classifyFile pTests pCode pConfig pDocs pAssets pOther
  cases h1 : isTestFile f <;> cases h2 : isCodeFile f <;> cases h3 : isConfigFile f
    <;> cases h4 : isDocFile f <;> cases h5 : isAssetFile f <;> simp

/-- C4: the categorizer classifies by the stated precedence with first match
winning (tests, then code, then config, then docs, then assets, then other),
and a path carrying a test marker together with a .json extension lands in
tests, not config. -/
theorem c4_categorizer_precedence (files : List String) :
    (categorizeFiles files).tests = files.filter pTests
    ∧ (categorizeFiles files).code = files.filter pCode
    ∧ (categorizeFiles files).config = files.filter pConfig
    ∧ (categorizeFiles files).docs = files.filter pDocs
    ∧ (categorizeFiles files).assets = files.filter pAssets
    ∧ (categorizeFiles files).other = files.filter pOther
    ∧ ∀ f ∈ files, isTestFile f = true → pathExtname f = ".json" →
        f ∈ (categorizeFiles files).tests ∧ f ∉ (categorizeFiles files).config := by
  rw [categorizeFiles_filter]
  refine ⟨rfl, rfl, rfl, rfl, rfl, rfl, ?_⟩
  intro f hf ht _
  constructor
  · exact List.mem_filter.mpr ⟨hf, by simpa [pTests] using ht⟩
  · intro hc
    have := (List.mem_filter.mp hc).2
    simp [pConfig, ht] at this

theorem c4_categorizer_precedence_witness :
    "a.test.json" ∈ (categorizeFiles ["a.test.json", "b.js"]).tests
    ∧ "a.test.json" ∉ (categorizeFiles ["a.test.json", "b.js"]).config := by
  exact (c4_categorizer_precedence ["a.test.json", "b.js"]).2.2.2.2.2.2
    "a.test.json" (by simp) (by decide) (by decide)

/-- C10: the categorizer output is a partition of its input: the six lists
together are a permutation of the input, each list preserves the input
order, and every input path lies in the list of its classification and in
no other. -/
theorem c10_categorizer_partition (files : List String) :
    ((categorizeFiles files).tests ++ (categorizeFiles files).code
      ++ (categorizeFiles files).config ++ (categorizeFiles files).docs
      ++ (categorizeFiles files).assets ++ (categorizeFiles files).other).Perm files
    ∧ (∀ c : FileCategory, (catList c (categorizeFiles files)).Sublist files)
    ∧ ∀ f ∈ files, f ∈ catList (classifyFile f) (categorizeFiles files)
        ∧ ∀ c : FileCategory, c ≠ classifyFile f →
            f ∉ catList c (categorizeFiles files) := by
  rw [categorizeFiles_filter]
  refine ⟨?_, ?_, ?_⟩
  · rw [List.perm_iff_count]
    intro a
    have hcount : ∀ p : String → Bool, p a = false →
        (files.filter p).count a = 0 := by
      intro p hp
      refine List.count_eq_zero.mpr ?_
      intro hmem
      have h := (List.mem_filter.mp hmem).2
      simp [h] at hp
    have hcount1 : ∀ p : String → Bool, p a = true →
        (files.filter p).count a = files.count a := by
      intro p hp
      exact List.count_filter hp
    rcases chain_partition a with ⟨h1, h2, h3, h4, h5, h6⟩ | ⟨h1, h2, h3, h4, h5, h6⟩
      | ⟨h1, h2, h3, h4, h5, h6⟩ | ⟨h1, h2, h3, h4, h5, h6⟩
      | ⟨h1, h2, h3, h4, h5, h6⟩ | ⟨h1, h2, h3, h4, h5, h6⟩
    · simp only [List.count_append, hcount1 _ h1, hcount _ h2, hcount _ h3,
        hcount _ h4, hcount _ h5, hcount _ h6]
      omega
    · simp only [List.count_append, hcount _ h1, hcount1 _ h2, hcount _ h3,
        hcount _ h4, hcount _ h5, hcount _ h6]
      omega
    · simp only [List.count_append, hcount _ h1, hcount _ h2, hcount1 _ h3,
        hcount _ h4, hcount _ h5, hcount _ h6]
      omega
    · simp only [List.count_append, hcount _ h1, hcount _ h2, hcount _ h3,
        hcount1 _ h4, hcount _ h5, hcount _ h6]
      omega
    · simp only [List.count_append, hcount _ h1, hcount _ h2, hcount _ h3,
        hcount _ h4, hcount1 _ h5, hcount _ h6]
      omega
    · simp only [List.count_append, hcount _ h1, hcount _ h2, hcount _ h3,
        hcount _ h4, hcount _ h5, hcount1 _ h6]
      omega
  · intro c
    cases c <;> simp [catList]
  · intro f hf
    have hiff := classify_iff f
    have hboth : ∀ p : String → Bool, p f = true → f ∈ files.filter p :=
      fun p hp => List.mem_filter.mpr ⟨hf, hp⟩
    constructor
    · rcases chain_partition f with ⟨h, _⟩ | ⟨_, h, _⟩ | ⟨_, _, h, _⟩
        | ⟨_, _, _, h, _⟩ | ⟨_, _, _, _, h, _⟩ | ⟨_, _, _, _, _, h⟩
      · rw [hiff.1.mpr h]; simpa [catList] using hboth _ h
      · rw [hiff.2.1.mpr h]; simpa [catList] using hboth _ h
      · rw [hiff.2.2.1.mpr h]; simpa [catList] using hboth _ h
      · rw [hiff.2.2.2.1.mpr h]; simpa [catList] using hboth _ h
      · rw [hiff.2.2.2.2.1.mpr h]; simpa [catList] using hboth _ h
      · rw [hiff.2.2.2.2.2.mpr h]; simpa [catList] using hboth _ h
    · intro c hc hmem
      apply hc
      cases c
      · exact (hiff.2.1.mpr
          (List.mem_filter.mp (by simpa [catList] using hmem)).2).symm
      · exact (hiff.2.2.1.mpr
          (List.mem_filter.mp (by simpa [catList] using hmem)).2).symm
      · exact (hiff.2.2.2.1.mpr
          (List.mem_filter.mp (by simpa [catList] using hmem)).2).symm
      · exact (hiff.1.mpr
          (List.mem_filter.mp (by simpa [catList] using hmem)).2).symm
      · exact (hiff.2.2.2.2.1.mpr
          (List.mem_filter.mp (by simpa [catList] using hmem)).2).symm
      · exact (hiff.2.2.2.2.2.mpr
          (List.mem_filter.mp (by simpa [catList] using hmem)).2).symm

theorem c10_categorizer_partition_witness :
    "a.test.json" ∈
      catList (classifyFile "a.test.json") (categorizeFiles ["a.test.json"]) := by
  exact ((c10_categorizer_partition ["a.test.json"]).2.2 "a.test.json" (by simp)).1

/-! ## File stats (`getFileStats`, src/lib/scanner.js) -/

/-- Key used by the per-extension histogram: the extension, or the literal
no-extension marker when `path.extname` is empty. -/
def extKey (f : String) : String :=
  if pathExtname f = "" then "(no extension)" else pathExtname f

/-- Key used by the per-directory histogram: the first chunk of
`path.dirname(file)` split on the separator, with the empty chunk replaced
by the dot marker (the source's falsy-default). -/
def topDirKey (f : String) : String :=
  let first := (splitOnChar '/' (pathDirname f).data).head?.getD []
  if first = [] then "." else String.mk first

/-- Histograms are JS objects keyed by strings: insertion-ordered
association lists. `bump` increments a key, inserting it at the end on
first sight. -/
def bump : List (String × Nat) → String → List (String × Nat)
  | [], k => [(k, 1)]
  | (k', v) :: rest, k =>
    if k' = k then (k', v + 1) :: rest else (k', v) :: bump rest k

/-- Association-list lookup with 0 default. -/
def lookupCount (k : String) : List (String × Nat) → Nat
  | [] => 0
  | (k', v) :: rest => if k' = k then v else lookupCount k rest

structure FileStats where
  total : Nat
  byExtension : List (String × Nat)
  byDirectory : List (String × Nat)
  totalSize : Nat
deriving Repr, DecidableEq

/-- Loop body of `getFileStats` over the file list.  `fileSize` models the
fs.stat probe: `none` is an unreadable file, skipped silently. -/
def statsGo (fileSize : String → Option Nat) : List String → FileStats → FileStats
  | [], st => st
  | f :: fs, st =>
    statsGo fileSize fs
      { st with
        byExtension := bump st.byExtension (extKey f)
        byDirectory := bump st.byDirectory (topDirKey f)
        totalSize := st.totalSize + (fileSize f).getD 0 }

def getFileStats (files : List String) (fileSize : String → Option Nat) : FileStats :=
  statsGo fileSize files
    { total := files.length, byExtension := [], byDirectory := [], totalSize := 0 }

theorem lookupCount_bump (m : List (String × Nat)) (k k' : String) :
    lookupCount k (bump m k') =
      if k' = k then lookupCount k m + 1 else lookupCount k m := by
  induction m with
  | nil => by_cases h : k' = k <;> simp [bump, lookupCount, h]
  | cons e rest ih =>
    obtain ⟨k0, v0⟩ := e
    by_cases h0 : k0 = k'
    · subst h0
      by_cases h1 : k0 = k
      · subst h1
        simp [bump, lookupCount]
      · simp [bump, lookupCount, h1]
    · by_cases h1 : k0 = k
      · subst h1
        have hk : ¬ k' = k0 := fun h => h0 h.symm
        simp [bump, lookupCount, h0, hk]
      · simp [bump, lookupCount, h0, h1, ih]

theorem statsGo_byDirectory (fileSize : String → Option Nat) (fs : List String) :
    ∀ st k, lookupCount k (statsGo fileSize fs st).byDirectory =
      lookupCount k st.byDirectory + (fs.map topDirKey).count k := by
  induction fs with
  | nil => intro st k; simp [statsGo]
  | cons f fs ih =>
    intro st k
    simp only [statsGo, List.map_cons]
    rw [ih]
    simp only [lookupCount_bump, List.count_cons]
    by_cases h : topDirKey f = k
    · simp [h]
      omega
    · simp [h]

/-- C8 (amended): the per-directory histogram of `getFileStats` is keyed by
the first chunk of `path.dirname` of each file path exactly as given (the
path is never relativized against a root; an empty first chunk becomes the
dot marker), and each file contributes exactly one count to its key. -/
theorem c8_by_directory_histogram (files : List String)
    (fileSize : String → Option Nat) (k : String) :
    lookupCount k (getFileStats files fileSize).byDirectory =
      (files.map topDirKey).count k := by
  unfold getFileStats
  rw [statsGo_byDirectory]
  simp [lookupCount]

/-- The classifier the claim describes: the first path segment of the file
path relative to the root, or the dot marker when the relative path has no
directory segment.  Stated only to exhibit the counterexample; the code
never relativizes. -/
def specRelativeFirstSegment (root file : String) : String :=
  let rel :=
    if (root ++ "/").data.isPrefixOf file.data then file.data.drop (root.length + 1)
    else file.data
  match splitOnChar '/' rel with
  | seg1 :: _ :: _ => String.mk seg1
  | _ => "."

/-- C8 counterexample: for root /proj and the absolute file /proj/src/a.js
the claim predicts a count under the relative first segment src, but the
histogram keys the file under the dot marker: `path.dirname` of an absolute
path starts with the empty chunk, so the root is never consulted. -/
theorem c8_counterexample :
    specRelativeFirstSegment "/proj" "/proj/src/a.js" = "src"
    ∧ lookupCount "src"
        (getFileStats ["/proj/src/a.js"] (fun _ => none)).byDirectory = 0
    ∧ lookupCount "."
        (getFileStats ["/proj/src/a.js"] (fun _ => none)).byDirectory = 1 := by
  exact ⟨by decide, by decide, by decide⟩

/-! ## Dependency analysis (`analyzeDependencies`, src/lib/analyzer.js) -/

structure Deps where
  manager : Option String
  dependencies : List (String × String)
  devDependencies : List (String × String)
deriving Repr, DecidableEq

/-- Parsed contents of a package.json, as the analyzer reads it.  `bin`
holds the declared executable paths (a string form becomes a singleton, an
object form its values list). -/
structure PackageJson where
  dependencies : List (String × String)
  devDependencies : List (String × String)
  main : Option String
  bin : List String
deriving Repr, DecidableEq

/-- The filesystem probes the analyzer performs at the project root.
`packageJson` is `none` when package.json is missing or unparseable (the
source treats a readFile failure and a JSON.parse failure identically);
`requirementsTxt` is the raw text of requirements.txt when readable;
`pyprojectToml` is the fs.access probe; `fileSize` is the per-file stat. -/
structure ProjectFs where
  packageJson : Option PackageJson
  requirementsTxt : Option String
  pyprojectToml : Bool
  fileSize : String → Option Nat

/-- Character class of the requirements-line name group. -/
def reqNameChar (c : Char) : Bool :=
  c.isAlpha || c.isDigit || c = '_' || c = '-'

/-- Characters opening a version-specifier group. -/
def reqSpecChar (c : Char) : Bool :=
  c = '<' || c = '>' || c = '=' || c = '!'

/-- Characters the JS dot regex atom matches (everything except the four
line terminators). -/
def jsDotOK (c : Char) : Bool :=
  !(c = '\n' || c = '\r' || c = '\u2028' || c = '\u2029')

/-- Anchored match of the requirements-line regex: a nonempty run of name
characters, optionally followed by a group starting with a specifier
character and covering the entire remainder (which must have length at
least two and no line terminator after its head, mirroring the regex
backtracking). -/
def reqMatch (t : List Char) : Option (String × Option String) :=
  let name := t.takeWhile reqNameChar
  let rest := t.drop name.length
  if name = [] then none
  else
    match rest with
    | [] => some (String.mk name, none)
    | c :: cs =>
      if reqSpecChar c && !cs.isEmpty && cs.all jsDotOK then
        some (String.mk name, some (String.mk (c :: cs)))
      else none

/-- JS object key assignment: update in place, append on first sight. -/
def setKey : List (String × String) → String → String → List (String × String)
  | [], k, v => [(k, v)]
  | (k', v') :: rest, k, v =>
    if k' = k then (k', v) :: rest else (k', v') :: setKey rest k v

/-- One line of `parseRequirements`: trim, skip blank and comment lines,
record a regex match with the default wildcard specifier. -/
def reqLine (m : List (String × String)) (line : List Char) : List (String × String) :=
  let t := trimChars line
  if t = [] then m
  else if t.head? = some '#' then m
  else
    match reqMatch t with
    | some (n, sp) => setKey m n (sp.getD "*")
    | none => m

def parseRequirements (content : String) : List (String × String) :=
  (splitOnChar '\n' content.data).foldl reqLine []

/-- Dependency probing in fixed priority: package.json, then
requirements.txt, then pyproject.toml; the first present source sets the
manager tag. -/
def analyzeDependencies (fs : ProjectFs) : Deps :=
  match fs.packageJson with
  | some pkg =>
    { manager := some "npm", dependencies := pkg.dependencies,
      devDependencies := pkg.devDependencies }
  | none =>
    match fs.requirementsTxt with
    | some content =>
      { manager := some "pip", dependencies := parseRequirements content,
        devDependencies := [] }
    | none =>
      if fs.pyprojectToml then
        { manager := some "poetry/pip", dependencies := [], devDependencies := [] }
      else { manager := none, dependencies := [], devDependencies := [] }

/-! ## Entry points (`findEntryPoints`, src/lib/analyzer.js) -/

def commonEntries : List String :=
  ["index.js", "index.ts", "main.js", "main.ts",
   "app.js", "app.ts", "server.js", "server.ts",
   "src/index.js", "src/index.ts", "src/main.js", "src/main.ts",
   "src/app.js", "src/app.ts",
   "main.py", "app.py", "__main__.py",
   "cmd/main.go", "main.go"]

def dedupFirstAux (seen : List String) : List String → List String
  | [] => []
  | x :: xs =>
    if seen.contains x then dedupFirstAux seen xs
    else x :: dedupFirstAux (x :: seen) xs

/-- JS `[...new Set(l)]`: drop repeats, keeping first occurrences in order. -/
def dedupFirst (l : List String) : List String := dedupFirstAux [] l

def findEntryPoints (projectPath : String) (files : List String)
    (fs : ProjectFs) : List String :=
  let fromCommon :=
    commonEntries.filter (fun e => files.contains (projectPath ++ "/" ++ e))
  let fromPkg :=
    match fs.packageJson with
    | some pkg => pkg.main.toList ++ pkg.bin
    | none => []
  dedupFirst (fromCommon ++ fromPkg)

/-! ## Directory structure and tech stack (src/lib/analyzer.js) -/

/-- Node `path.relative(root, file)` for the scanner-produced case of a file
strictly under the root (the only shape the analyzer receives); other
inputs are returned unchanged. -/
def relTo (root file : String) : List Char :=
  if (root ++ "/").data.isPrefixOf file.data then file.data.drop (root.length + 1)
  else file.data

/-- Directory structure produced by `analyzeStructure`: the sorted unique
strict-prefix directories of the relative paths, and the maximum segment
count.  (The source also carries an always-empty `tree` object, elided.) -/
structure DirStructure where
  directories : List String
  depth : Nat
deriving Repr, DecidableEq

/-- The strict directory prefixes of one relative path, joined on the
separator, in ascending length order (the source accumulates them with
`path.join` while walking the segments). -/
def dirPrefixes (segs : List (List Char)) : List String :=
  (List.range (segs.length - 1)).map
    (fun i => String.intercalate "/" ((segs.take (i + 1)).map String.mk))

def analyzeStructure (projectPath : String) (files : List String) : DirStructure :=
  let partsOf := fun f => splitOnChar '/' (relTo projectPath f)
  let dirs := dedupFirst (files.flatMap (fun f => dirPrefixes (partsOf f)))
  { directories := List.mergeSort dirs (fun a b => decide (a ≤ b)),
    depth := files.foldl (fun d f => max d (partsOf f).length) 0 }

/-- Association-list lookup for string-keyed JS objects. -/
def lookupStr (k : String) : List (String × String) → Option String
  | [] => none
  | (k2, v) :: rest => if k2 = k then some v else lookupStr k rest

/-- JS object spread of two objects: the first object's keys in order (with
values overridden by the second where both define them), then the second
object's new keys in order. -/
def mergeObj (a b : List (String × String)) : List (String × String) :=
  (a.map (fun e => (e.1, (lookupStr e.1 b).getD e.2)))
    ++ b.filter (fun e => lookupStr e.1 a = none)

/-- JS truthiness of an object lookup: the key is present with a nonempty
value string. -/
def depPresent (k : String) (m : List (String × String)) : Bool :=
  ((lookupStr k m).getD "") ≠ ""

def detectTechStack (deps : Deps) (stats : FileStats) : List String :=
  let allDeps := mergeObj deps.dependencies deps.devDependencies
  let fileExts := stats.byExtension.map (·.1)
  (if fileExts.any (fun e => [".js", ".mjs", ".cjs"].contains e) then ["JavaScript"] else [])
  ++ (if fileExts.any (fun e => [".ts", ".tsx"].contains e) then ["TypeScript"] else [])
  ++ (if fileExts.any (fun e => e = ".py") then ["Python"] else [])
  ++ (if fileExts.any (fun e => e = ".go") then ["Go"] else [])
  ++ (if fileExts.any (fun e => e = ".rs") then ["Rust"] else [])
  ++ (if depPresent "react" allDeps || depPresent "react-dom" allDeps then ["React"] else [])
  ++ (if depPresent "vue" allDeps then ["Vue"] else [])
  ++ (if depPresent "@angular/core" allDeps then ["Angular"] else [])
  ++ (if depPresent "next" allDeps then ["Next.js"] else [])
  ++ (if depPresent "express" allDeps then ["Express"] else [])
  ++ (if depPresent "fastify" allDeps then ["Fastify"] else [])
  ++ (if depPresent "nestjs" allDeps || depPresent "@nestjs/core" allDeps then ["NestJS"] else [])
  ++ (if depPresent "webpack" allDeps then ["Webpack"] else [])
  ++ (if depPresent "vite" allDeps then ["Vite"] else [])
  ++ (if depPresent "jest" allDeps then ["Jest"] else [])
  ++ (if depPresent "mocha" allDeps then ["Mocha"] else [])
  ++ (if depPresent "tailwindcss" allDeps then ["Tailwind CSS"] else [])

/-- Project-level fact bundle built by `analyzeProject`.  The field named
`structure` in the source is `dirStructure` here (`structure` is a Lean
keyword). -/
structure ProjectFacts where
  name : String
  path : String
  files : List String
  stats : FileStats
  categories : Categories
  dirStructure : DirStructure
  dependencies : Deps
  entryPoints : List String
  techStack : List String

def analyzeProject (projectPath : String) (files : List String)
    (fs : ProjectFs) : ProjectFacts :=
  let deps := analyzeDependencies fs
  let stats := getFileStats files fs.fileSize
  { name := pathBasename projectPath
    path := projectPath
    files := files
    stats := stats
    categories := categorizeFiles files
    dirStructure := analyzeStructure projectPath files
    dependencies := deps
    entryPoints := findEntryPoints projectPath files fs
    techStack := detectTechStack deps stats }

/-- C5: a project whose files are index.js and requirements.txt, with the
requirements file reading flask==2.0 and no package.json or pyproject.toml,
aggregates to entryPoints [index.js], manager pip and the flask dependency
mapped to ==2.0; and the manifest probe priority is package.json, then
requirements.txt, then pyproject.toml, the first hit setting the manager. -/
theorem c5_aggregation_pip_entry :
    ((analyzeProject "/proj" ["/proj/index.js", "/proj/requirements.txt"]
        ⟨none, some "flask==2.0", false, fun _ => none⟩).entryPoints = ["index.js"]
      ∧ (analyzeProject "/proj" ["/proj/index.js", "/proj/requirements.txt"]
          ⟨none, some "flask==2.0", false, fun _ => none⟩).dependencies.manager
            = some "pip"
      ∧ (analyzeProject "/proj" ["/proj/index.js", "/proj/requirements.txt"]
          ⟨none, some "flask==2.0", false, fun _ => none⟩).dependencies.dependencies
            = [("flask", "==2.0")])
    ∧ (∀ fs : ProjectFs, ∀ pkg, fs.packageJson = some pkg →
        (analyzeDependencies fs).manager = some "npm"
          ∧ (analyzeDependencies fs).dependencies = pkg.dependencies)
    ∧ (∀ fs : ProjectFs, ∀ c, fs.packageJson = none → fs.requirementsTxt = some c →
        (analyzeDependencies fs).manager = some "pip"
          ∧ (analyzeDependencies fs).dependencies = parseRequirements c)
    ∧ (∀ fs : ProjectFs, fs.packageJson = none → fs.requirementsTxt = none →
        fs.pyprojectToml = true →
          (analyzeDependencies fs).manager = some "poetry/pip") := by
  refine ⟨⟨by decide, by decide, by decide⟩, ?_, ?_, ?_⟩
  · intro fs pkg h
    simp [analyzeDependencies, h]
  · intro fs c h1 h2
    simp [analyzeDependencies, h1, h2]
  · intro fs h1 h2 h3
    simp [analyzeDependencies, h1, h2, h3]

theorem c5_aggregation_pip_entry_witness :
    (analyzeDependencies ⟨some ⟨[("express", "^4.0.0")], [], none, []⟩, none, false,
        fun _ => none⟩).manager = some "npm"
    ∧ (analyzeDependencies ⟨none, none, true, fun _ => none⟩).manager
        = some "poetry/pip" :=
  ⟨(c5_aggregation_pip_entry.2.1 _ _ rfl).1,
   c5_aggregation_pip_entry.2.2.2 _ rfl rfl rfl⟩

/-! ## Python line-heuristic parser (`parsePython`, src/lib/parser.js) -/

/-- The JS regex word class: ASCII letters, digits and underscore. -/
def wordChar (c : Char) : Bool := c.isAlpha || c.isDigit || c = '_'

/-- First character class of the module-level constant regex. -/
def upperUnd (c : Char) : Bool := c.isUpper || c = '_'

/-- Continuation class of the module-level constant regex. -/
def upperDigitUnd (c : Char) : Bool := c.isUpper || c.isDigit || c = '_'

/-- Tail of the import regex after the import keyword: one or more
whitespace characters then a nonempty dot-matchable group reaching the end
of the line.  The auxiliary tries the whitespace-run lengths greedily from
the maximal run down, exactly as the regex engine backtracks. -/
def importTailAux (r : List Char) : Nat → Option (List Char)
  | 0 => none
  | j + 1 =>
    let t := r.drop (j + 1)
    if !t.isEmpty && t.all jsDotOK then some t else importTailAux r j

def importTail (r : List Char) : Option (List Char) :=
  importTailAux r (r.takeWhile jsSpace).length

/-- The from-form of the Python import regex: the from keyword, whitespace,
a nonempty non-whitespace module name, whitespace, the import keyword and
its tail.  Each run is forced maximal (shorter choices fail immediately on
the following atom). -/
def importFrom (line : List Char) : Option (Option (List Char) × List Char) :=
  match stripLit "from".data line with
  | none => none
  | some r1 =>
    let w1 := r1.takeWhile jsSpace
    if w1.isEmpty then none
    else
      let r2 := r1.drop w1.length
      let m := r2.takeWhile (fun c => !jsSpace c)
      if m.isEmpty then none
      else
        let r3 := r2.drop m.length
        let w2 := r3.takeWhile jsSpace
        if w2.isEmpty then none
        else
          match stripLit "import".data (r3.drop w2.length) with
          | none => none
          | some r4 =>
            match importTail r4 with
            | none => none
            | some g2 => some (some m, g2)

/-- The bare form of the Python import regex. -/
def importBare (line : List Char) : Option (Option (List Char) × List Char) :=
  match stripLit "import".data line with
  | none => none
  | some r => (importTail r).map (fun g2 => (none, g2))

/-- Anchored match of the Python import regex, returning the optional
from-module group and the imported-names group.  The two alternatives start
with distinct literal characters, so trying them in order is exact. -/
def importMatch (line : List Char) : Option (Option (List Char) × List Char) :=
  match importFrom line with
  | some x => some x
  | none => importBare line

/-- Body of the function-definition regex after the leading whitespace
group `ws`: the def keyword, whitespace, a word-character name, optional
whitespace, and a parenthesized parameter group stopped at the first
closing parenthesis (which must be present). -/
def funcBody (ws r0 : List Char) : Option (List Char × List Char × List Char) :=
  match stripLit "def".data r0 with
  | none => none
  | some r1 =>
    let w1 := r1.takeWhile jsSpace
    if w1.isEmpty then none
    else
      let r2 := r1.drop w1.length
      let name := r2.takeWhile wordChar
      if name.isEmpty then none
      else
        let r3 := (r2.drop name.length).dropWhile jsSpace
        if r3.head? = some '(' then
          let r4 := r3.tail
          let params := r4.takeWhile (· ≠ ')')
          if params.length = r4.length then none else some (ws, name, params)
        else none

/-- Anchored match of the Python function-definition regex: capture the
leading whitespace run, then match the remainder. -/
def funcMatch (line : List Char) : Option (List Char × List Char × List Char) :=
  funcBody (line.takeWhile jsSpace) (line.dropWhile jsSpace)

/-- Anchored match of the Python class-definition regex: the class keyword
at column zero, whitespace, a word-character name, an optional
parenthesized base list (stopped at the first closing parenthesis), and a
mandatory colon directly after the name or the closing parenthesis. -/
def classMatch (line : List Char) : Option (List Char × Option (List Char)) :=
  match stripLit "class".data line with
  | none => none
  | some r1 =>
    let w1 := r1.takeWhile jsSpace
    if w1.isEmpty then none
    else
      let r2 := r1.drop w1.length
      let name := r2.takeWhile wordChar
      if name.isEmpty then none
      else
        let r3 := r2.drop name.length
        if r3.head? = some ':' then some (name, none)
        else if r3.head? = some '(' then
          let r4 := r3.tail
          let inner := r4.takeWhile (· ≠ ')')
          let r5 := r4.drop inner.length
          if r5.head? = some ')' ∧ r5.tail.head? = some ':' then
            some (name, some inner)
          else none
        else none

/-- Anchored match of the module-level constant regex: an upper-case or
underscore first character, a run of upper-case/digit/underscore
characters, optional whitespace and an equals sign. -/
def varMatch (line : List Char) : Option (List Char) :=
  match line with
  | [] => none
  | c0 :: rest =>
    if upperUnd c0 then
      let tailN := rest.takeWhile upperDigitUnd
      match (rest.drop tailN.length).dropWhile jsSpace with
      | '=' :: _ => some (c0 :: tailN)
      | _ => none
    else none

structure PyImportEntry where
  source : String
  line : Nat
deriving Repr, DecidableEq

structure PyFunctionEntry where
  name : String
  params : List String
  line : Nat
  isMethod : Bool
deriving Repr, DecidableEq

structure PyClassEntry where
  name : String
  superClass : Option String
  line : Nat
deriving Repr, DecidableEq

structure PyVarEntry where
  name : String
  line : Nat
deriving Repr, DecidableEq

/-- The structural facts `parsePython` pushes into the shared result
record (only the fields that function populates). -/
structure PyRec where
  imports : List PyImportEntry
  functions : List PyFunctionEntry
  classes : List PyClassEntry
  vars : List PyVarEntry
deriving Repr, DecidableEq

def emptyPyRec : PyRec := ⟨[], [], [], []⟩

/-- Parameter-group processing: comma split, per-token trim, drop empty
tokens (the JS filter on string truthiness). -/
def splitParams (params : List Char) : List String :=
  ((splitOnChar ',' params).map (fun t => String.mk (trimChars t))).filter
    (fun s => s ≠ "")

/-- One line of `parsePython`: the four regexes are tried in order and the
first successful one pushes its record and short-circuits the rest. -/
def pyLine (r : PyRec) (lineNum : Nat) (line : List Char) : PyRec :=
  match importMatch line with
  | some (g1, g2) =>
    { r with imports := r.imports ++ [⟨String.mk (g1.getD g2), lineNum⟩] }
  | none =>
  match funcMatch line with
  | some (ws, name, params) =>
    { r with functions := r.functions ++
        [⟨String.mk name, splitParams params, lineNum, decide (0 < ws.length)⟩] }
  | none =>
  match classMatch line with
  | some (name, sup) =>
    { r with classes := r.classes ++
        [⟨String.mk name, sup.map String.mk, lineNum⟩] }
  | none =>
  match varMatch line with
  | some name => { r with vars := r.vars ++ [⟨String.mk name, lineNum⟩] }
  | none => r

def pyGo : Nat → List (List Char) → PyRec → PyRec
  | _, [], r => r
  | n, l :: ls, r => pyGo (n + 1) ls (pyLine r n l)

/-- `parsePython`: split the content into physical lines and scan each with
the regex cascade, line numbers starting at 1. -/
def parsePython (content : String) : PyRec :=
  pyGo 1 (splitOnChar '\n' content.data) emptyPyRec

/-! ## Lemmas about the Python matchers -/

theorem takeWhile_append_of_all {α} (p : α → Bool) {l1 : List α} (l2 : List α)
    (h : ∀ a ∈ l1, p a = true) :
    (l1 ++ l2).takeWhile p = l1 ++ l2.takeWhile p := by
  induction l1 with
  | nil => simp
  | cons a l ih =>
    simp [List.takeWhile_cons, h a (by simp),
      ih (fun b hb => h b (by simp [hb]))]

theorem dropWhile_append_of_all {α} (p : α → Bool) {l1 : List α} (l2 : List α)
    (h : ∀ a ∈ l1, p a = true) :
    (l1 ++ l2).dropWhile p = l2.dropWhile p := by
  induction l1 with
  | nil => simp
  | cons a l ih =>
    simp [List.dropWhile_cons, h a (by simp),
      ih (fun b hb => h b (by simp [hb]))]

theorem splitOnChar_no_sep (c : Char) (l : List Char) (h : ∀ x ∈ l, x ≠ c) :
    splitOnChar c l = [l] := by
  induction l with
  | nil => rfl
  | cons x xs ih =>
    simp [splitOnChar, ih (fun y hy => h y (List.mem_cons_of_mem _ hy)),
      h x (List.mem_cons_self x xs)]

theorem stripLit_self (p l : List Char) : stripLit p (p ++ l) = some l := by
  induction p with
  | nil => rfl
  | cons a ps ih => simp [stripLit, ih]

theorem jsSpace_cases {c : Char} (h : jsSpace c = true) :
    c = ' ' ∨ c = '\t' ∨ c = '\n' ∨ c = '\r' ∨ c = '\x0b' ∨ c = '\x0c' := by
  simp [jsSpace] at h
  tauto

theorem space_ne {c p : Char} (hc : jsSpace c = true) (hp : jsSpace p = false) :
    ¬ c = p := by
  intro he
  subst he
  rw [hp] at hc
  exact Bool.noConfusion hc

theorem wordChar_not_space {c : Char} (h : wordChar c = true) : jsSpace c = false := by
  cases hs : jsSpace c
  · rfl
  · exfalso
    rcases jsSpace_cases hs with h1 | h1 | h1 | h1 | h1 | h1 <;> subst h1 <;>
      revert h <;> decide

/-- A line whose leading whitespace is followed by the letter d matches
neither form of the import regex. -/
theorem importMatch_space_d (wl rest : List Char)
    (h : ∀ cch ∈ wl, jsSpace cch = true) :
    importMatch (wl ++ 'd' :: rest) = none := by
  have hfrom : stripLit "from".data (wl ++ 'd' :: rest) = none := by
    cases wl with
    | nil => simp [stripLit]
    | cons c cs =>
      have hc := h c (by simp)
      have hne : ¬ c = 'f' := space_ne hc (by decide)
      simp [stripLit, hne]
  have hbare : stripLit "import".data (wl ++ 'd' :: rest) = none := by
    cases wl with
    | nil => simp [stripLit]
    | cons c cs =>
      have hc := h c (by simp)
      have hne : ¬ c = 'i' := space_ne hc (by decide)
      simp [stripLit, hne]
  simp [importMatch, importFrom, importBare, hfrom, hbare]

/-- The captured whitespace group only flows into the result of the
function regex; the rest of the match is independent of it. -/
theorem funcBody_ws (ws r0 : List Char) :
    funcBody ws r0 = (funcBody [] r0).map (fun t => (ws, t.2.1, t.2.2)) := by
  unfold funcBody
  cases stripLit "def".data r0 with
  | none => rfl
  | some r1 =>
    dsimp only
    split_ifs <;> rfl

/-- The function regex on a whitespace run followed by the concrete line
of the claim: the captured groups are the run, the name f and the raw
parameter text. -/
theorem funcMatch_ws_def_line (wl : List Char)
    (h : ∀ cch ∈ wl, jsSpace cch = true) :
    funcMatch (wl ++ "def f(a, b):".data) = some (wl, "f".data, "a, b".data) := by
  unfold funcMatch
  rw [takeWhile_append_of_all _ _ h, dropWhile_append_of_all _ _ h]
  rw [show ("def f(a, b):".data.takeWhile jsSpace) = [] from by decide,
      show ("def f(a, b):".data.dropWhile jsSpace) = "def f(a, b):".data from by decide]
  simp only [List.append_nil]
  rw [funcBody_ws]
  rw [show funcBody [] "def f(a, b):".data = some ([], "f".data, "a, b".data) from
    by decide]
  rfl

/-- C6: a def line with arbitrary (non-newline) leading whitespace yields
exactly one function record with name f, parameters a and b, line 1 and
isMethod exactly when the whitespace run is nonempty; and the parameter
list is comma-split, trimmed and stripped of empty tokens. -/
theorem c6_python_def_function (ws : String)
    (hws : ∀ cch ∈ ws.data, jsSpace cch = true ∧ cch ≠ '\n') :
    (parsePython (ws ++ "def f(a, b):")).functions
        = [⟨"f", ["a", "b"], 1, decide (0 < ws.length)⟩]
    ∧ (parsePython "def g(a,, b ,):").functions = [⟨"g", ["a", "b"], 1, false⟩] := by
  refine ⟨?_, by decide⟩
  obtain ⟨wl⟩ := ws
  have hdata : (String.mk wl ++ "def f(a, b):").data = wl ++ "def f(a, b):".data := rfl
  have hsp : ∀ cch ∈ wl, jsSpace cch = true := fun cch hc => (hws cch hc).1
  have hlit : ∀ x ∈ "def f(a, b):".data, x ≠ '\n' := by decide
  have hnl : ∀ x ∈ wl ++ "def f(a, b):".data, x ≠ '\n' := by
    intro x hx
    rcases List.mem_append.mp hx with hx | hx
    · exact (hws x hx).2
    · exact hlit x hx
  have him : importMatch (wl ++ "def f(a, b):".data) = none :=
    importMatch_space_d wl "ef f(a, b):".data hsp
  have hfm := funcMatch_ws_def_line wl hsp
  have hsplit : splitParams "a, b".data = ["a", "b"] := by decide
  unfold parsePython
  rw [hdata, splitOnChar_no_sep _ _ hnl]
  show (pyLine emptyPyRec 1 (wl ++ "def f(a, b):".data)).functions = _
  unfold pyLine
  rw [him, hfm]
  simp [emptyPyRec, hsplit]

theorem c6_python_def_function_witness :
    (parsePython ("" ++ "def f(a, b):")).functions
        = [⟨"f", ["a", "b"], 1, false⟩]
    ∧ (parsePython ("    " ++ "def f(a, b):")).functions
        = [⟨"f", ["a", "b"], 1, true⟩] :=
  ⟨(c6_python_def_function "" (by decide)).1,
   (c6_python_def_function "    " (by decide)).1⟩

theorem importMatch_c (t : List Char) : importMatch ('c' :: t) = none := by
  have hf : ¬ ('c' = 'f') := by decide
  have hi : ¬ ('c' = 'i') := by decide
  have h1 : stripLit "from".data ('c' :: t) = none := by simp [stripLit, hf]
  have h2 : stripLit "import".data ('c' :: t) = none := by simp [stripLit, hi]
  simp [importMatch, importFrom, importBare, h1, h2]

theorem funcMatch_c (t : List Char) : funcMatch ('c' :: t) = none := by
  have hcs : jsSpace 'c' = false := by decide
  have hcd : ¬ ('c' = 'd') := by decide
  unfold funcMatch funcBody
  rw [List.dropWhile_cons]
  simp [hcs, stripLit, hcd]

/-- The class regex on the concrete shape of the claim: keyword, one space,
a word-character name, a parenthesized base list free of closing
parentheses, and the colon; both captured groups are returned whole. -/
theorem classMatch_line (c0 : Char) (nt bl : List Char)
    (h0 : wordChar c0 = true)
    (hnw : ∀ cch ∈ nt, wordChar cch = true)
    (hbr : ∀ cch ∈ bl, cch ≠ ')') :
    classMatch ("class ".data ++ (c0 :: (nt ++ ('(' :: (bl ++ [')', ':'])))))
      = some (c0 :: nt, some bl) := by
  have hs0 : jsSpace c0 = false := wordChar_not_space h0
  have hspt : jsSpace ' ' = true := by decide
  have hlp : wordChar '(' = false := by decide
  have key : "class ".data ++ (c0 :: (nt ++ ('(' :: (bl ++ [')', ':']))))
      = "class".data ++ (' ' :: c0 :: (nt ++ ('(' :: (bl ++ [')', ':'])))) := by
    rw [show ("class ".data : List Char) = "class".data ++ [' '] from by decide]
    simp
  have h1 : List.takeWhile jsSpace (' ' :: c0 :: (nt ++ ('(' :: (bl ++ [')', ':']))))
      = [' '] := by
    simp [List.takeWhile_cons, hspt, hs0]
  have h2 : List.takeWhile wordChar (c0 :: (nt ++ ('(' :: (bl ++ [')', ':']))))
      = c0 :: nt := by
    rw [List.takeWhile_cons]
    simp only [h0, if_true]
    rw [takeWhile_append_of_all _ _ hnw]
    simp [List.takeWhile_cons, hlp]
  have h3 : (c0 :: (nt ++ ('(' :: (bl ++ [')', ':'])))).drop (c0 :: nt).length
      = '(' :: (bl ++ [')', ':']) := by
    simp only [List.length_cons, List.drop_succ_cons]
    exact List.drop_left nt _
  have h4 : List.takeWhile (fun x => decide (x ≠ ')')) (bl ++ [')', ':']) = bl := by
    rw [takeWhile_append_of_all _ _ (fun a ha => decide_eq_true (hbr a ha))]
    rw [show List.takeWhile (fun x => decide (x ≠ ')')) [')', ':'] = [] from by decide]
    simp
  have h5 : (bl ++ [')', ':']).drop bl.length = [')', ':'] := List.drop_left bl _
  have hc1 : ¬ ((some '(' : Option Char) = some ':') := by decide
  unfold classMatch
  rw [key, stripLit_self]
  dsimp only
  rw [h1]
  simp only [List.isEmpty_cons, Bool.false_eq_true, if_false,
    List.length_singleton, List.drop_succ_cons, List.drop_zero]
  rw [h2]
  simp only [List.isEmpty_cons, Bool.false_eq_true, if_false]
  rw [h3]
  simp only [List.head?_cons, List.tail_cons, if_neg hc1, if_true]
  rw [h4, h5]
  simp

/-- C7 (amended): for a Python class line with a parenthesized base-class
list, the extracted class record's parent field is the entire text between
the parentheses (the raw captured group); when the list has exactly one
base this coincides with the first base. -/
theorem c7_python_class_parent (name bases : String)
    (hn : name.data ≠ []) (hnw : ∀ cch ∈ name.data, wordChar cch = true)
    (hb : ∀ cch ∈ bases.data, cch ≠ ')' ∧ cch ≠ '\n') :
    (parsePython ("class " ++ name ++ "(" ++ bases ++ "):")).classes
      = [⟨name, some bases, 1⟩] := by
  obtain ⟨nl⟩ := name
  obtain ⟨bl⟩ := bases
  obtain ⟨c0, nt, rfl⟩ : ∃ c0 nt, nl = c0 :: nt := by
    cases nl with
    | nil => exact absurd rfl hn
    | cons a t => exact ⟨a, t, rfl⟩
  have hword : ∀ cch : Char, wordChar cch = true → cch ≠ '\n' := by
    intro cch h he
    subst he
    revert h
    decide
  have hdata : ("class " ++ String.mk (c0 :: nt) ++ "(" ++ String.mk bl ++ "):").data
      = "class ".data ++ (c0 :: (nt ++ ('(' :: (bl ++ [')', ':'])))) := by
    simp [String.data_append, List.append_assoc]
  have hnl : ∀ x ∈ "class ".data ++ (c0 :: (nt ++ ('(' :: (bl ++ [')', ':'])))),
      x ≠ '\n' := by
    intro x hx
    have hlit : ∀ y ∈ "class ".data, y ≠ ('\n' : Char) := by decide
    rcases List.mem_append.mp hx with hx | hx
    · exact hlit x hx
    · rcases List.mem_cons.mp hx with rfl | hx
      · exact hword x (hnw x (by simp))
      · rcases List.mem_append.mp hx with hx | hx
        · exact hword x (hnw x (by simp [hx]))
        · rcases List.mem_cons.mp hx with rfl | hx
          · decide
          · rcases List.mem_append.mp hx with hx | hx
            · exact (hb x hx).2
            · rcases List.mem_cons.mp hx with rfl | hx
              · decide
              · rcases List.mem_cons.mp hx with rfl | hx
                · decide
                · cases hx
  have hline : "class ".data ++ (c0 :: (nt ++ ('(' :: (bl ++ [')', ':']))))
      = 'c' :: ("lass ".data ++ (c0 :: (nt ++ ('(' :: (bl ++ [')', ':']))))) := by
    rw [show ("class ".data : List Char) = 'c' :: "lass ".data from by decide]
    simp
  have him : importMatch
      ("class ".data ++ (c0 :: (nt ++ ('(' :: (bl ++ [')', ':']))))) = none := by
    rw [hline]
    exact importMatch_c _
  have hfm : funcMatch
      ("class ".data ++ (c0 :: (nt ++ ('(' :: (bl ++ [')', ':']))))) = none := by
    rw [hline]
    exact funcMatch_c _
  have hcm := classMatch_line c0 nt bl (hnw c0 (by simp))
    (fun a ha => hnw a (by simp [ha])) (fun a ha => (hb a ha).1)
  unfold parsePython
  rw [hdata, splitOnChar_no_sep _ _ hnl]
  show (pyLine emptyPyRec 1 _).classes = _
  unfold pyLine
  rw [him, hfm, hcm]
  simp [emptyPyRec]

/-- The first base of a comma-separated base list, the reading the claim
asserts for the parent field: the chunk before the first comma, trimmed.
Stated only to exhibit the counterexample. -/
def firstBase (s : String) : String :=
  String.mk (trimChars ((splitOnChar ',' s.data).head?.getD []))

/-- C7 counterexample: for the line class C(A, B): the recorded parent is
the whole base-list text A, B; the first base in that list is A, and the
two differ, refuting the claim as stated. -/
theorem c7_counterexample :
    (parsePython "class C(A, B):").classes = [⟨"C", some "A, B", 1⟩]
    ∧ firstBase "A, B" = "A"
    ∧ ((some "A, B" : Option String) ≠ some "A") :=
  ⟨by decide, by decide, by decide⟩

theorem c7_python_class_parent_witness :
    (parsePython ("class " ++ "C" ++ "(" ++ "A" ++ "):")).classes
      = [⟨"C", some "A", 1⟩] :=
  c7_python_class_parent "C" "A" (by decide) (by decide) (by decide)

/-! ## JSON structural descriptor (`getJSONStructure`, src/lib/parser.js) -/

/-- JSON values as produced by JSON.parse (numbers are irrelevant to the
descriptor beyond their type tag). -/
inductive JValue where
  | jnull
  | jbool (b : Bool)
  | jnum
  | jstr (s : String)
  | jarr (items : List JValue)
  | jobj (fields : List (String × JValue))
deriving Repr

/-- Descriptor values returned by `getJSONStructure`: a plain string (the
depth placeholder, a typeof tag, or the more-keys note), an array
descriptor, or an object descriptor whose keys map to nested descriptors. -/
inductive JStructure where
  | sval (s : String)
  | arrS (length : Nat) (items : Option JStructure)
  | objS (keys : List (String × JStructure))
deriving Repr

/-- JS typeof for the scalar fall-through (null reaches it because null is
falsy, and typeof null is the string object). -/
def jsTypeof : JValue → String
  | .jnull => "object"
  | .jbool _ => "boolean"
  | .jnum => "number"
  | .jstr _ => "string"
  | .jarr _ => "array-unreachable"
  | .jobj _ => "object-unreachable"

mutual

/-- `getJSONStructure`: depth guard first, then the array case (first item
descriptor), then the object case (first ten keys in insertion order plus a
more-keys note), then the typeof tag. -/
def getJSONStructure : JValue → Nat → JStructure
  | v, depth =>
    if depth > 3 then .sval "..."
    else
      match v with
      | .jarr items =>
        .arrS items.length
          (match items with
           | [] => none
           | x :: _ => some (getJSONStructure x (depth + 1)))
      | .jobj fields =>
        let keys := jsonFieldsTake 10 fields (depth + 1)
        let m := fields.length - 10
        .objS (if fields.length > 10 then
                 keys ++ [("...", .sval (toString m ++ " more keys"))]
               else keys)
      | v => .sval (jsTypeof v)

/-- The first `n` object fields with their nested descriptors at the given
depth (the source's slice-then-recurse). -/
def jsonFieldsTake : Nat → List (String × JValue) → Nat → List (String × JStructure)
  | 0, _, _ => []
  | _ + 1, [], _ => []
  | n + 1, (k, x) :: rest, depth =>
    (k, getJSONStructure x depth) :: jsonFieldsTake n rest depth

end

/-- The descriptor of a whole JSON document: the source calls
`getJSONStructure(json)` with the default depth 0. -/
def rootJSONStructure (v : JValue) : JStructure := getJSONStructure v 0

/-- Object nested to the given depth, to exercise the truncation bound. -/
def nestObj : Nat → JValue
  | 0 => .jstr "x"
  | n + 1 => .jobj [("k", nestObj n)]

/-- C3: below the depth bound the descriptor is the opaque placeholder
regardless of the value, so any two values reached at depth 4 or deeper
have identical descriptors; in particular a 5-level and a 6-level nested
object produce identical whole-document descriptors, which collapse at
level 4. -/
theorem c3_json_depth_bound :
    (∀ (v w : JValue) (d : Nat), 3 < d →
      getJSONStructure v d = JStructure.sval "..."
        ∧ getJSONStructure v d = getJSONStructure w d)
    ∧ rootJSONStructure (nestObj 5) = rootJSONStructure (nestObj 6) := by
  constructor
  · intro v w d hd
    have hv : getJSONStructure v d = JStructure.sval "..." := by
      unfold getJSONStructure
      rw [if_pos hd]
    have hw : getJSONStructure w d = JStructure.sval "..." := by
      unfold getJSONStructure
      rw [if_pos hd]
    exact ⟨hv, hv.trans hw.symm⟩
  · rfl

theorem c3_json_depth_bound_witness :
    getJSONStructure (JValue.jobj [("deep", JValue.jnum)]) 4
        = JStructure.sval "..."
      ∧ getJSONStructure (JValue.jobj [("deep", JValue.jnum)]) 4
        = getJSONStructure (JValue.jarr [JValue.jnull, JValue.jnum]) 4 :=
  c3_json_depth_bound.1 (JValue.jobj [("deep", JValue.jnum)])
    (JValue.jarr [JValue.jnull, JValue.jnum]) 4 (by decide)

/-! ## ECMAScript syntax-tree extraction (`parseJavaScript`, src/lib/parser.js)

The acorn syntax tree is modelled by a closed inductive covering the node
shapes the tree-walk handlers inspect; every other node kind appears as an
opaque node carrying its walkable children.  The walk (acorn-walk simple)
visits every node of the tree depth first, children before the node's own
handler, and every handler appends to the shared result lists, so the final
lists equal the concatenation of the per-subtree contributions in visit
order; the walker below is that fold, written compositionally. -/

structure ImportSpecEntry where
  stype : String
  name : String
  imported : Option String
deriving Repr, DecidableEq

structure ImportEntry where
  source : String
  specifiers : List ImportSpecEntry
  line : Nat
deriving Repr, DecidableEq

structure ExportEntry where
  etype : String
  name : Option String
  line : Nat
deriving Repr, DecidableEq

/-- A function record.  The declaration handler writes `generator` and an
initial `exported := false` and no `arrow`; the variable-initializer
handler writes `arrow` and neither `generator` nor `exported`.  The absent
JS fields are modelled as `none` / an initial `false`; the post-walk loop
overwrites `exported` on every record before the result is returned. -/
structure FunctionEntry where
  name : String
  params : List String
  isAsync : Bool
  generator : Option Bool
  arrow : Option Bool
  line : Nat
  exported : Bool
deriving Repr, DecidableEq

structure MethodEntry where
  name : Option String
  kind : String
  isStatic : Bool
deriving Repr, DecidableEq

structure ClassEntry where
  name : Option String
  superClass : Option String
  methods : List MethodEntry
  line : Nat
  exported : Bool
deriving Repr, DecidableEq

structure VariableEntry where
  name : String
  kind : String
  line : Nat
deriving Repr, DecidableEq

structure CommentEntry where
  ctype : String
  value : String
  cstart : Nat
  cend : Nat
deriving Repr, DecidableEq

/-- A parameter node as the handlers read it: `p.name`, else `p.left?.name`
for a default-value pattern, else the placeholder. -/
inductive ParamNode where
  | identPar (name : String)
  | assignPar (left : Option String)
  | otherPar
deriving Repr, DecidableEq

def paramName : ParamNode → String
  | .identPar n => n
  | .assignPar (some n) => n
  | .assignPar none => "param"
  | .otherPar => "param"

/-- A declarator id: an identifier or any other binding pattern. -/
inductive Pat where
  | identP (name : String)
  | otherP
deriving Repr, DecidableEq

/-- `decl.id.name`: the name for an identifier, undefined otherwise. -/
def patNameOpt : Pat → Option String
  | .identP n => some n
  | .otherP => none

/-- One item of a class body: a method definition (key name as read by
`item.key.name`, kind, static flag) or any other item, which the handler
skips.  Method bodies are carried on the class node's children list. -/
inductive ClassItem where
  | methodDef (key : Option String) (kind : String) (isStatic : Bool)
  | otherItem
deriving Repr, DecidableEq

mutual

inductive Expr where
  | arrowFunctionExpression (params : List ParamNode) (isAsync : Bool)
      (body : List Stmt)
  | functionExpression (id : Option String) (params : List ParamNode)
      (isAsync : Bool) (body : List Stmt)
  | identifierE (name : String)
  | otherExpr (children : List Stmt)

inductive Stmt where
  | importDeclaration (source : String) (specifiers : List ImportSpecEntry)
      (line : Nat)
  | exportNamedDeclaration (declaration : Option Stmt) (specifiers : List String)
      (line : Nat)
  | exportDefaultDeclaration (declaration : Expr ⊕ Stmt) (line : Nat)
  | functionDeclaration (id : Option String) (params : List ParamNode)
      (isAsync : Bool) (isGenerator : Bool) (body : List Stmt) (line : Nat)
  | classDeclaration (id : Option String) (superClass : Option String)
      (items : List ClassItem) (children : List Stmt) (line : Nat)
  | variableDeclaration (kind : String) (declarations : List (Pat × Option Expr))
      (line : Nat)
  | otherStmt (children : List Stmt)

end

/-- The initializer test of the VariableDeclaration handler:
`init.type` is ArrowFunctionExpression or FunctionExpression. -/
def isFnInit : Expr → Bool
  | .arrowFunctionExpression _ _ _ => true
  | .functionExpression _ _ _ _ => true
  | _ => false

def fnInitParams : Expr → List ParamNode
  | .arrowFunctionExpression ps _ _ => ps
  | .functionExpression _ ps _ _ => ps
  | _ => []

def fnInitAsync : Expr → Bool
  | .arrowFunctionExpression _ a _ => a
  | .functionExpression _ _ a _ => a
  | _ => false

def isArrowInit : Expr → Bool
  | .arrowFunctionExpression _ _ _ => true
  | _ => false

/-- Entries the ExportNamedDeclaration handler pushes: one per declared
function/class, one per declarator of a declared variable statement, then
one re-export per specifier. -/
def exportNamedEntries (decl : Option Stmt) (specifiers : List String)
    (line : Nat) : List ExportEntry :=
  (match decl with
   | some (.functionDeclaration id _ _ _ _ _) => [⟨"function", id, line⟩]
   | some (.variableDeclaration _ decls _) =>
     decls.map (fun d => ⟨"variable", patNameOpt d.1, line⟩)
   | some (.classDeclaration id _ _ _ _) => [⟨"class", id, line⟩]
   | _ => [])
  ++ specifiers.map (fun n => ⟨"reexport", some n, line⟩)

/-- The name the ExportDefaultDeclaration handler records:
`declaration.name`, else `declaration.id?.name`, else the placeholder. -/
def defaultExportName : Expr ⊕ Stmt → String
  | .inl (.identifierE n) => n
  | .inl (.functionExpression id _ _ _) => id.getD "anonymous"
  | .inl _ => "anonymous"
  | .inr (.functionDeclaration id _ _ _ _ _) => id.getD "anonymous"
  | .inr (.classDeclaration id _ _ _ _) => id.getD "anonymous"
  | .inr _ => "anonymous"

/-- The method list the ClassDeclaration handler collects: items of type
MethodDefinition only. -/
def methodsOf (items : List ClassItem) : List MethodEntry :=
  items.filterMap fun
    | .methodDef k kind st => some ⟨k, kind, st⟩
    | .otherItem => none

/-- Function records contributed by the declarators of one variable
statement: identifier declarators whose initializer is a function or arrow
expression. -/
def declFnEntries (decls : List (Pat × Option Expr)) (line : Nat) :
    List FunctionEntry :=
  decls.filterMap fun d =>
    match d.1, d.2 with
    | .identP n, some e =>
      if isFnInit e then
        some ⟨n, (fnInitParams e).map paramName, fnInitAsync e, none,
              some (isArrowInit e), line, false⟩
      else none
    | _, _ => none

/-- Variable records contributed by the declarators of one variable
statement: identifier declarators without a function/arrow initializer. -/
def declVarEntries (kind : String) (decls : List (Pat × Option Expr))
    (line : Nat) : List VariableEntry :=
  decls.filterMap fun d =>
    match d.1, d.2 with
    | .identP n, some e => if isFnInit e then none else some ⟨n, kind, line⟩
    | .identP n, none => some ⟨n, kind, line⟩
    | _, _ => none

/-- The record the walk accumulates (the fields the handlers push into;
the source's `variables` list is `vars` here, a Lean keyword clash). -/
structure JsRec where
  imports : List ImportEntry
  exports : List ExportEntry
  functions : List FunctionEntry
  classes : List ClassEntry
  vars : List VariableEntry
deriving Repr, DecidableEq

def emptyJsRec : JsRec := ⟨[], [], [], [], []⟩

def JsRec.append (a b : JsRec) : JsRec :=
  ⟨a.imports ++ b.imports, a.exports ++ b.exports, a.functions ++ b.functions,
   a.classes ++ b.classes, a.vars ++ b.vars⟩

@[simp] theorem append_imports (a b : JsRec) :
    (a.append b).imports = a.imports ++ b.imports := rfl

@[simp] theorem append_exports (a b : JsRec) :
    (a.append b).exports = a.exports ++ b.exports := rfl

@[simp] theorem append_functions (a b : JsRec) :
    (a.append b).functions = a.functions ++ b.functions := rfl

@[simp] theorem append_classes (a b : JsRec) :
    (a.append b).classes = a.classes ++ b.classes := rfl

@[simp] theorem append_vars (a b : JsRec) :
    (a.append b).vars = a.vars ++ b.vars := rfl

mutual

/-- Facts contributed by a statement list, in order. -/
def walkStmts : List Stmt → JsRec
  | [] => emptyJsRec
  | s :: rest => JsRec.append (walkStmt s) (walkStmts rest)

/-- Facts contributed by one statement subtree: children first (the base
walker recurses before the handler fires), then the node's own handler. -/
def walkStmt : Stmt → JsRec
  | .importDeclaration src specs line =>
    { emptyJsRec with imports := [⟨src, specs, line⟩] }
  | .exportNamedDeclaration decl specs line =>
    JsRec.append (walkOptStmt decl)
      { emptyJsRec with exports := exportNamedEntries decl specs line }
  | .exportDefaultDeclaration d line =>
    JsRec.append (walkDefault d)
      { emptyJsRec with exports := [⟨"default", some (defaultExportName d), line⟩] }
  | .functionDeclaration id params isAsync isGen body line =>
    JsRec.append (walkStmts body)
      { emptyJsRec with functions :=
          [⟨id.getD "anonymous", params.map paramName, isAsync, some isGen, none,
            line, false⟩] }
  | .classDeclaration id sup items children line =>
    JsRec.append (walkStmts children)
      { emptyJsRec with classes := [⟨id, sup, methodsOf items, line, false⟩] }
  | .variableDeclaration kind decls line =>
    JsRec.append (walkDecls decls)
      { emptyJsRec with functions := declFnEntries decls line,
                        vars := declVarEntries kind decls line }
  | .otherStmt children => walkStmts children

def walkOptStmt : Option Stmt → JsRec
  | none => emptyJsRec
  | some s => walkStmt s

def walkDefault : Expr ⊕ Stmt → JsRec
  | .inl e => walkExpr e
  | .inr s => walkStmt s

def walkExpr : Expr → JsRec
  | .arrowFunctionExpression _ _ body => walkStmts body
  | .functionExpression _ _ _ body => walkStmts body
  | .identifierE _ => emptyJsRec
  | .otherExpr children => walkStmts children

def walkDecls : List (Pat × Option Expr) → JsRec
  | [] => emptyJsRec
  | d :: rest => JsRec.append (walkOptExpr d.2) (walkDecls rest)

def walkOptExpr : Option Expr → JsRec
  | none => emptyJsRec
  | some e => walkExpr e

end

/-- The post-walk loops: collect every export name into a set and stamp
each function/class record with membership of its name. -/
def markExported (r : JsRec) : JsRec :=
  let exportedNames := r.exports.map (fun e => e.name)
  { r with
    functions := r.functions.map
      (fun f => { f with exported := exportedNames.contains (some f.name) })
    classes := r.classes.map
      (fun c => { c with exported := exportedNames.contains c.name }) }

/-- The structural facts of a successfully parsed program. -/
def parsedFacts (prog : List Stmt) : JsRec := markExported (walkStmts prog)

/-- The per-file record `parseFile` initializes and the parsers populate
(the source's `variables` field is `vars` here). -/
structure FileRecord where
  filePath : String
  fileName : String
  extension : String
  lines : Nat
  size : Nat
  exports : List ExportEntry
  imports : List ImportEntry
  functions : List FunctionEntry
  classes : List ClassEntry
  vars : List VariableEntry
  comments : List CommentEntry
  ast : Option (List Stmt)
  parseError : Option String

/-- The record `parseFile` builds before dispatching (fact lists empty,
no syntax tree, no parse error). -/
def initRecord (filePath content : String) : FileRecord :=
  { filePath := filePath
    fileName := pathBasename filePath
    extension := pathExtname filePath
    lines := (splitOnChar '\n' content.data).length
    size := content.length
    exports := []
    imports := []
    functions := []
    classes := []
    vars := []
    comments := []
    ast := none
    parseError := none }

/-- Outcome of the acorn parse of one source text.  On success acorn
returns the program and has emitted all comments through onComment; on a
syntax error it throws carrying a message, after having already emitted
through onComment the comments tokenized before the error position —
those pushes into the result record are not undone by the catch. -/
inductive AcornResult where
  | success (program : List Stmt) (comments : List CommentEntry)
  | failure (message : String) (commentsSoFar : List CommentEntry)

/-- `parseJavaScript`: on success, walk the tree, then stamp the exported
flags; on failure, record the error message and return the record as it
stands (comments emitted before the failure included, fact lists
untouched). -/
def parseJavaScript (res : AcornResult) (showAst : Bool)
    (result : FileRecord) : FileRecord :=
  match res with
  | .success prog comments =>
    let r := parsedFacts prog
    { result with
      comments := result.comments ++ comments
      ast := if showAst then some prog else result.ast
      imports := result.imports ++ r.imports
      exports := result.exports ++ r.exports
      functions := result.functions ++ r.functions
      classes := result.classes ++ r.classes
      vars := result.vars ++ r.vars }
  | .failure msg cs =>
    { result with
      comments := result.comments ++ cs
      parseError := some msg }

/-- C1 (amended): a failed ECMAScript parse returns a record (no exception
propagates: the function is total) carrying the parser's message in
parseError and empty imports, exports, functions, classes and variables;
the comments list holds exactly the comments acorn reported before
failing, which need not be empty. -/
theorem c1_parse_failure_record (p c msg : String) (cs : List CommentEntry)
    (showAst : Bool) :
    (parseJavaScript (.failure msg cs) showAst (initRecord p c)).parseError = some msg
    ∧ (parseJavaScript (.failure msg cs) showAst (initRecord p c)).imports = []
    ∧ (parseJavaScript (.failure msg cs) showAst (initRecord p c)).exports = []
    ∧ (parseJavaScript (.failure msg cs) showAst (initRecord p c)).functions = []
    ∧ (parseJavaScript (.failure msg cs) showAst (initRecord p c)).classes = []
    ∧ (parseJavaScript (.failure msg cs) showAst (initRecord p c)).vars = []
    ∧ (parseJavaScript (.failure msg cs) showAst (initRecord p c)).comments = cs
    ∧ (parseJavaScript (.failure msg cs) showAst (initRecord p c)).ast = none := by
  refine ⟨rfl, rfl, rfl, rfl, rfl, rfl, ?_, rfl⟩
  show [] ++ cs = cs
  simp

/-- C1 counterexample: the source text starting with a line comment and
continuing with a stray closing brace makes acorn emit the comment through
onComment while tokenizing and then throw at the brace; the catch keeps
the already-pushed comment, so the failed record's comments list is not
empty, refuting the all-fact-lists-empty part of the claim. -/
theorem c1_counterexample :
    (parseJavaScript
        (.failure "Unexpected token (2:0)" [⟨"line", "hi", 0, 5⟩]) false
        (initRecord "a.js" "// hi\n\x7d")).comments ≠ []
    ∧ (parseJavaScript
        (.failure "Unexpected token (2:0)" [⟨"line", "hi", 0, 5⟩]) false
        (initRecord "a.js" "// hi\n\x7d")).parseError = some "Unexpected token (2:0)" :=
  ⟨by decide, by decide⟩

/-! ## C2: export entries of function/class kind name walked declarations -/

/-- Every export entry of type function (resp. class) with a defined name
is matched by a function (resp. class) record of that name in the same
partial result. -/
def CoversExports (r : JsRec) : Prop :=
  (∀ e ∈ r.exports, e.etype = "function" → ∀ n, e.name = some n →
      ∃ f ∈ r.functions, f.name = n)
  ∧ ∀ e ∈ r.exports, e.etype = "class" → ∀ n, e.name = some n →
      ∃ cl ∈ r.classes, cl.name = some n

theorem coversExports_empty : CoversExports emptyJsRec := by
  constructor <;> (intro e he; simp [emptyJsRec] at he)

theorem coversExports_append {a b : JsRec} (ha : CoversExports a)
    (hb : CoversExports b) : CoversExports (a.append b) := by
  constructor
  · intro e he het n hn
    rw [append_exports] at he
    rcases List.mem_append.mp he with he | he
    · obtain ⟨f, hf, hfn⟩ := ha.1 e he het n hn
      exact ⟨f, by rw [append_functions]; exact List.mem_append_left _ hf, hfn⟩
    · obtain ⟨f, hf, hfn⟩ := hb.1 e he het n hn
      exact ⟨f, by rw [append_functions]; exact List.mem_append_right _ hf, hfn⟩
  · intro e he het n hn
    rw [append_exports] at he
    rcases List.mem_append.mp he with he | he
    · obtain ⟨cl, hc, hcn⟩ := ha.2 e he het n hn
      exact ⟨cl, by rw [append_classes]; exact List.mem_append_left _ hc, hcn⟩
    · obtain ⟨cl, hc, hcn⟩ := hb.2 e he het n hn
      exact ⟨cl, by rw [append_classes]; exact List.mem_append_right _ hc, hcn⟩

theorem mem_reexports {specs : List String} {line : Nat} {e : ExportEntry}
    (he : e ∈ specs.map (fun nm => (⟨"reexport", some nm, line⟩ : ExportEntry))) :
    e.etype = "reexport" := by
  obtain ⟨nm, _, rfl⟩ := List.mem_map.mp he
  rfl

theorem mem_varexports {decls : List (Pat × Option Expr)} {line : Nat}
    {e : ExportEntry}
    (he : e ∈ decls.map (fun d => (⟨"variable", patNameOpt d.1, line⟩ : ExportEntry))) :
    e.etype = "variable" := by
  obtain ⟨d, _, rfl⟩ := List.mem_map.mp he
  rfl

theorem exportNamedEntries_cases {decl : Option Stmt} {specs : List String}
    {line : Nat} {e : ExportEntry}
    (he : e ∈ exportNamedEntries decl specs line) :
    e.etype = "reexport" ∨ e.etype = "variable"
    ∨ (∃ id params isAsync isGen body dline,
        decl = some (.functionDeclaration id params isAsync isGen body dline)
        ∧ e = ⟨"function", id, line⟩)
    ∨ (∃ id sup items children dline,
        decl = some (.classDeclaration id sup items children dline)
        ∧ e = ⟨"class", id, line⟩) := by
  rw [exportNamedEntries.eq_def] at he
  rcases List.mem_append.mp he with he | he
  · cases decl with
    | none => simp at he
    | some d =>
      cases d with
      | functionDeclaration id params isAsync isGen body dline =>
        refine Or.inr (Or.inr (Or.inl
          ⟨id, params, isAsync, isGen, body, dline, rfl, ?_⟩))
        simpa using he
      | variableDeclaration kind decls dline =>
        refine Or.inr (Or.inl (mem_varexports (by simpa using he)))
      | classDeclaration id sup items children dline =>
        refine Or.inr (Or.inr (Or.inr
          ⟨id, sup, items, children, dline, rfl, ?_⟩))
        simpa using he
      | importDeclaration a b c => simp at he
      | exportNamedDeclaration a b c => simp at he
      | exportDefaultDeclaration a b => simp at he
      | otherStmt a => simp at he
  · exact Or.inl (mem_reexports he)

mutual

theorem covers_stmts : ∀ l : List Stmt, CoversExports (walkStmts l)
  | [] => by rw [walkStmts]; exact coversExports_empty
  | s :: rest => by
    rw [walkStmts]
    exact coversExports_append (covers_stmt s) (covers_stmts rest)

theorem covers_stmt : ∀ s : Stmt, CoversExports (walkStmt s)
  | .importDeclaration src specs line => by
    constructor <;> (intro e he; simp [walkStmt, emptyJsRec] at he)
  | .exportNamedDeclaration decl specs line => by
    have hd := covers_optStmt decl
    rw [walkStmt]
    constructor
    · intro e he het n hn
      rw [append_exports] at he
      rcases List.mem_append.mp he with he | he
      · obtain ⟨f, hf, hfn⟩ := hd.1 e he het n hn
        exact ⟨f, by rw [append_functions]; exact List.mem_append_left _ hf, hfn⟩
      · have he2 : e ∈ exportNamedEntries decl specs line := he
        rcases exportNamedEntries_cases he2 with h | h
          | ⟨id, params, isAsync, isGen, body, dline, rfl, rfl⟩
          | ⟨id, sup, items, children, dline, hdecl, rfl⟩
        · rw [h] at het
          exact absurd het (by decide)
        · rw [h] at het
          exact absurd het (by decide)
        · have hid : id = some n := hn
          refine ⟨⟨n, params.map paramName, isAsync, some isGen, none,
            dline, false⟩, ?_, rfl⟩
          rw [append_functions]
          apply List.mem_append_left
          show _ ∈ (walkStmt (.functionDeclaration id params isAsync isGen
            body dline)).functions
          rw [walkStmt, append_functions]
          apply List.mem_append_right
          simp [hid]
        · have hcf : ("class" : String) = "function" := het
          exact absurd hcf (by decide)
    · intro e he het n hn
      rw [append_exports] at he
      rcases List.mem_append.mp he with he | he
      · obtain ⟨cl, hc, hcn⟩ := hd.2 e he het n hn
        exact ⟨cl, by rw [append_classes]; exact List.mem_append_left _ hc, hcn⟩
      · have he2 : e ∈ exportNamedEntries decl specs line := he
        rcases exportNamedEntries_cases he2 with h | h
          | ⟨id, params, isAsync, isGen, body, dline, hdecl, rfl⟩
          | ⟨id, sup, items, children, dline, rfl, rfl⟩
        · rw [h] at het
          exact absurd het (by decide)
        · rw [h] at het
          exact absurd het (by decide)
        · have hfc : ("function" : String) = "class" := het
          exact absurd hfc (by decide)
        · have hid : id = some n := hn
          refine ⟨⟨id, sup, methodsOf items, dline, false⟩, ?_, hid⟩
          rw [append_classes]
          apply List.mem_append_left
          show _ ∈ (walkStmt (.classDeclaration id sup items children
            dline)).classes
          rw [walkStmt, append_classes]
          apply List.mem_append_right
          simp
  | .exportDefaultDeclaration d line => by
    have hd := covers_default d
    rw [walkStmt]
    constructor
    · intro e he het n hn
      rw [append_exports] at he
      rcases List.mem_append.mp he with he | he
      · obtain ⟨f, hf, hfn⟩ := hd.1 e he het n hn
        exact ⟨f, by rw [append_functions]; exact List.mem_append_left _ hf, hfn⟩
      · have hee : e = ⟨"default", some (defaultExportName d), line⟩ := by
          simpa using he
        subst hee
        have hdf : ("default" : String) = "function" := het
        exact absurd hdf (by decide)
    · intro e he het n hn
      rw [append_exports] at he
      rcases List.mem_append.mp he with he | he
      · obtain ⟨cl, hc, hcn⟩ := hd.2 e he het n hn
        exact ⟨cl, by rw [append_classes]; exact List.mem_append_left _ hc, hcn⟩
      · have hee : e = ⟨"default", some (defaultExportName d), line⟩ := by
          simpa using he
        subst hee
        have hdc : ("default" : String) = "class" := het
        exact absurd hdc (by decide)
  | .functionDeclaration id params isAsync isGen body line => by
    have hb := covers_stmts body
    rw [walkStmt]
    constructor
    · intro e he het n hn
      rw [append_exports] at he
      rcases List.mem_append.mp he with he | he
      · obtain ⟨f, hf, hfn⟩ := hb.1 e he het n hn
        exact ⟨f, by rw [append_functions]; exact List.mem_append_left _ hf, hfn⟩
      · simp [emptyJsRec] at he
    · intro e he het n hn
      rw [append_exports] at he
      rcases List.mem_append.mp he with he | he
      · obtain ⟨cl, hc, hcn⟩ := hb.2 e he het n hn
        exact ⟨cl, by rw [append_classes]; exact List.mem_append_left _ hc, hcn⟩
      · simp [emptyJsRec] at he
  | .classDeclaration id sup items children line => by
    have hb := covers_stmts children
    rw [walkStmt]
    constructor
    · intro e he het n hn
      rw [append_exports] at he
      rcases List.mem_append.mp he with he | he
      · obtain ⟨f, hf, hfn⟩ := hb.1 e he het n hn
        exact ⟨f, by rw [append_functions]; exact List.mem_append_left _ hf, hfn⟩
      · simp [emptyJsRec] at he
    · intro e he het n hn
      rw [append_exports] at he
      rcases List.mem_append.mp he with he | he
      · obtain ⟨cl, hc, hcn⟩ := hb.2 e he het n hn
        exact ⟨cl, by rw [append_classes]; exact List.mem_append_left _ hc, hcn⟩
      · simp [emptyJsRec] at he
  | .variableDeclaration kind decls line => by
    have hb := covers_decls decls
    rw [walkStmt]
    constructor
    · intro e he het n hn
      rw [append_exports] at he
      rcases List.mem_append.mp he with he | he
      · obtain ⟨f, hf, hfn⟩ := hb.1 e he het n hn
        exact ⟨f, by rw [append_functions]; exact List.mem_append_left _ hf, hfn⟩
      · simp [emptyJsRec] at he
    · intro e he het n hn
      rw [append_exports] at he
      rcases List.mem_append.mp he with he | he
      · obtain ⟨cl, hc, hcn⟩ := hb.2 e he het n hn
        exact ⟨cl, by rw [append_classes]; exact List.mem_append_left _ hc, hcn⟩
      · simp [emptyJsRec] at he
  | .otherStmt children => by
    rw [walkStmt]
    exact covers_stmts children

theorem covers_optStmt : ∀ o : Option Stmt, CoversExports (walkOptStmt o)
  | none => by rw [walkOptStmt]; exact coversExports_empty
  | some s => by rw [walkOptStmt]; exact covers_stmt s

theorem covers_default : ∀ d : Expr ⊕ Stmt, CoversExports (walkDefault d)
  | .inl e => by rw [walkDefault]; exact covers_expr e
  | .inr s => by rw [walkDefault]; exact covers_stmt s

theorem covers_expr : ∀ e : Expr, CoversExports (walkExpr e)
  | .arrowFunctionExpression params a body => by
    rw [walkExpr]; exact covers_stmts body
  | .functionExpression id params a body => by
    rw [walkExpr]; exact covers_stmts body
  | .identifierE n => by rw [walkExpr]; exact coversExports_empty
  | .otherExpr children => by rw [walkExpr]; exact covers_stmts children

theorem covers_decls : ∀ ds : List (Pat × Option Expr), CoversExports (walkDecls ds)
  | [] => by rw [walkDecls]; exact coversExports_empty
  | d :: rest => by
    rw [walkDecls]
    exact coversExports_append (covers_optExpr d.2) (covers_decls rest)

theorem covers_optExpr : ∀ o : Option Expr, CoversExports (walkOptExpr o)
  | none => by rw [walkOptExpr]; exact coversExports_empty
  | some e => by rw [walkOptExpr]; exact covers_expr e

end

/-- C2 (amended): every export entry of kind function (resp. class) with a
name corresponds to a function (resp. class) record of that name with
is-exported true; and is-exported on every record equals membership of its
name in the set of ALL export names of the same pass regardless of kind —
so a declaration whose name is exported as a default, variable or
re-export is also flagged. -/
theorem c2_exported_flags (prog : List Stmt) :
    (∀ e ∈ (parsedFacts prog).exports, e.etype = "function" → ∀ n, e.name = some n →
        ∃ f ∈ (parsedFacts prog).functions, f.name = n ∧ f.exported = true)
    ∧ (∀ e ∈ (parsedFacts prog).exports, e.etype = "class" → ∀ n, e.name = some n →
        ∃ cl ∈ (parsedFacts prog).classes, cl.name = some n ∧ cl.exported = true)
    ∧ (∀ f ∈ (parsedFacts prog).functions,
        f.exported
          = ((parsedFacts prog).exports.map (fun e => e.name)).contains (some f.name))
    ∧ (∀ cl ∈ (parsedFacts prog).classes,
        cl.exported
          = ((parsedFacts prog).exports.map (fun e => e.name)).contains cl.name) := by
  have hc := covers_stmts prog
  refine ⟨?_, ?_, ?_, ?_⟩
  · intro e he het n hn
    obtain ⟨g, hg, hgn⟩ := hc.1 e he het n hn
    have hmem : (some n) ∈ (walkStmts prog).exports.map (fun e => e.name) :=
      List.mem_map.mpr ⟨e, he, hn⟩
    have hcont : ((walkStmts prog).exports.map (fun e => e.name)).contains (some n)
        = true := List.elem_eq_true_of_mem hmem
    refine ⟨{ g with exported :=
        ((walkStmts prog).exports.map (fun e => e.name)).contains (some g.name) },
      List.mem_map_of_mem _ hg, hgn, ?_⟩
    rw [hgn]
    exact hcont
  · intro e he het n hn
    obtain ⟨g, hg, hgn⟩ := hc.2 e he het n hn
    have hmem : (some n) ∈ (walkStmts prog).exports.map (fun e => e.name) :=
      List.mem_map.mpr ⟨e, he, hn⟩
    have hcont : ((walkStmts prog).exports.map (fun e => e.name)).contains (some n)
        = true := List.elem_eq_true_of_mem hmem
    refine ⟨{ g with exported :=
        ((walkStmts prog).exports.map (fun e => e.name)).contains g.name },
      List.mem_map_of_mem _ hg, hgn, ?_⟩
    rw [hgn]
    exact hcont
  · intro f hf
    obtain ⟨g, hg, rfl⟩ := List.mem_map.mp hf
    rfl
  · intro cl hcl
    obtain ⟨g, hg, rfl⟩ := List.mem_map.mp hcl
    rfl

theorem c2_exported_flags_witness :
    ∃ f ∈ (parsedFacts [.exportNamedDeclaration
        (some (.functionDeclaration (some "foo") [] false false [] 1)) [] 1]).functions,
      f.name = "foo" ∧ f.exported = true :=
  (c2_exported_flags [.exportNamedDeclaration
      (some (.functionDeclaration (some "foo") [] false false [] 1)) [] 1]).1
    ⟨"function", some "foo", 1⟩ (by decide) rfl "foo" rfl

/-- C2 counterexample: the program export default foo; function foo() {}
has no export of kind function or class, yet the function record foo gets
is-exported = true, because the exported-name set is built from export
entries of every kind (here the default export).  This refutes the claim
that no declaration outside function/class-kind exports is flagged. -/
theorem c2_counterexample :
    ((parsedFacts [.exportDefaultDeclaration (.inl (.identifierE "foo")) 1,
        .functionDeclaration (some "foo") [] false false [] 2]).functions.map
          (fun f => (f.name, f.exported)) = [("foo", true)])
    ∧ (∀ e ∈ (parsedFacts [.exportDefaultDeclaration (.inl (.identifierE "foo")) 1,
        .functionDeclaration (some "foo") [] false false [] 2]).exports,
          e.etype ≠ "function" ∧ e.etype ≠ "class") :=
  ⟨by decide, by decide⟩

/-! ## C9: variable declarators with function initializers -/

/-- A statement node occurs in the subtree of a statement (left) or an
expression (right), through any of the walkable child positions. -/
inductive OccIn : Stmt ⊕ Expr → Stmt → Prop where
  | refl (s : Stmt) : OccIn (.inl s) s
  | exportDecl {d t : Stmt} (specs : List String) (line : Nat) :
      OccIn (.inl d) t → OccIn (.inl (.exportNamedDeclaration (some d) specs line)) t
  | defaultStmt {s t : Stmt} (line : Nat) :
      OccIn (.inl s) t → OccIn (.inl (.exportDefaultDeclaration (.inr s) line)) t
  | defaultExpr {e : Expr} {t : Stmt} (line : Nat) :
      OccIn (.inr e) t → OccIn (.inl (.exportDefaultDeclaration (.inl e) line)) t
  | fnBody {s t : Stmt} (id : Option String) (params : List ParamNode)
      (isAsync isGen : Bool) {body : List Stmt} (line : Nat) :
      s ∈ body → OccIn (.inl s) t →
      OccIn (.inl (.functionDeclaration id params isAsync isGen body line)) t
  | clsChild {s t : Stmt} (id sup : Option String) (items : List ClassItem)
      {children : List Stmt} (line : Nat) :
      s ∈ children → OccIn (.inl s) t →
      OccIn (.inl (.classDeclaration id sup items children line)) t
  | varInit {e : Expr} {t : Stmt} (kind : String)
      {decls : List (Pat × Option Expr)} (line : Nat) {d : Pat × Option Expr} :
      d ∈ decls → d.2 = some e → OccIn (.inr e) t →
      OccIn (.inl (.variableDeclaration kind decls line)) t
  | otherChild {s t : Stmt} {children : List Stmt} :
      s ∈ children → OccIn (.inl s) t → OccIn (.inl (.otherStmt children)) t
  | arrowBody {s t : Stmt} (params : List ParamNode) (isAsync : Bool)
      {body : List Stmt} :
      s ∈ body → OccIn (.inl s) t →
      OccIn (.inr (.arrowFunctionExpression params isAsync body)) t
  | fnExprBody {s t : Stmt} (id : Option String) (params : List ParamNode)
      (isAsync : Bool) {body : List Stmt} :
      s ∈ body → OccIn (.inl s) t →
      OccIn (.inr (.functionExpression id params isAsync body)) t
  | otherBody {s t : Stmt} {children : List Stmt} :
      s ∈ children → OccIn (.inl s) t → OccIn (.inr (.otherExpr children)) t

/-- A statement occurs in the subtree of a statement. -/
def SIn (s t : Stmt) : Prop := OccIn (.inl s) t

/-- A statement occurs in the subtree of an expression. -/
def EIn (e : Expr) (t : Stmt) : Prop := OccIn (.inr e) t

/-- A statement node occurs somewhere in the program. -/
def ProgIn (prog : List Stmt) (t : Stmt) : Prop := ∃ s ∈ prog, SIn s t

theorem mem_walkStmts_functions {s : Stmt} {l : List Stmt} (hs : s ∈ l)
    {f : FunctionEntry} (hf : f ∈ (walkStmt s).functions) :
    f ∈ (walkStmts l).functions := by
  induction l with
  | nil => cases hs
  | cons a rest ih =>
    rw [walkStmts, append_functions]
    rcases List.mem_cons.mp hs with rfl | hs
    · exact List.mem_append_left _ hf
    · exact List.mem_append_right _ (ih hs)

theorem mem_walkDecls_functions {d : Pat × Option Expr}
    {ds : List (Pat × Option Expr)} (hd : d ∈ ds)
    {f : FunctionEntry} (hf : f ∈ (walkOptExpr d.2).functions) :
    f ∈ (walkDecls ds).functions := by
  induction ds with
  | nil => cases hd
  | cons a rest ih =>
    rw [walkDecls, append_functions]
    rcases List.mem_cons.mp hd with rfl | hd
    · exact List.mem_append_left _ hf
    · exact List.mem_append_right _ (ih hd)

/-- The function list of a subtree is contained in the function list of
any subtree it occurs in. -/
theorem occIn_functions {x : Stmt ⊕ Expr} {t : Stmt} (h : OccIn x t) :
    ∀ f : FunctionEntry, f ∈ (walkStmt t).functions →
      f ∈ (Sum.elim walkStmt walkExpr x).functions := by
  induction h with
  | refl s => exact fun f hf => hf
  | exportDecl specs line h ih =>
    intro f hf
    simp only [Sum.elim_inl] at *
    rw [walkStmt, append_functions]
    exact List.mem_append_left _ (ih f hf)
  | defaultStmt line h ih =>
    intro f hf
    simp only [Sum.elim_inl] at *
    rw [walkStmt, append_functions]
    exact List.mem_append_left _ (ih f hf)
  | defaultExpr line h ih =>
    intro f hf
    simp only [Sum.elim_inl, Sum.elim_inr] at *
    rw [walkStmt, append_functions]
    exact List.mem_append_left _ (ih f hf)
  | fnBody id params isAsync isGen line hs h ih =>
    intro f hf
    simp only [Sum.elim_inl] at *
    rw [walkStmt, append_functions]
    exact List.mem_append_left _ (mem_walkStmts_functions hs (ih f hf))
  | clsChild id sup items line hs h ih =>
    intro f hf
    simp only [Sum.elim_inl] at *
    rw [walkStmt, append_functions]
    exact List.mem_append_left _ (mem_walkStmts_functions hs (ih f hf))
  | varInit kind line hd hde h ih =>
    intro f hf
    simp only [Sum.elim_inl, Sum.elim_inr] at *
    rw [walkStmt, append_functions]
    apply List.mem_append_left
    apply mem_walkDecls_functions hd
    rw [hde]
    exact ih f hf
  | otherChild hs h ih =>
    intro f hf
    simp only [Sum.elim_inl] at *
    rw [walkStmt]
    exact mem_walkStmts_functions hs (ih f hf)
  | arrowBody params isAsync hs h ih =>
    intro f hf
    simp only [Sum.elim_inl, Sum.elim_inr] at *
    rw [walkExpr]
    exact mem_walkStmts_functions hs (ih f hf)
  | fnExprBody id params isAsync hs h ih =>
    intro f hf
    simp only [Sum.elim_inl, Sum.elim_inr] at *
    rw [walkExpr]
    exact mem_walkStmts_functions hs (ih f hf)
  | otherBody hs h ih =>
    intro f hf
    simp only [Sum.elim_inl, Sum.elim_inr] at *
    rw [walkExpr]
    exact mem_walkStmts_functions hs (ih f hf)

/-- A variable record originates in a declarator list: some identifier
declarator carries its name and has no function/arrow initializer. -/
def VarOrigin (v : VariableEntry) (decls : List (Pat × Option Expr)) : Prop :=
  ∃ d ∈ decls, d.1 = .identP v.name ∧ ∀ e, d.2 = some e → isFnInit e = false

mutual

theorem vars_origin_stmts : ∀ (l : List Stmt) (v : VariableEntry),
    v ∈ (walkStmts l).vars → ∃ kind decls line,
      (∃ s ∈ l, SIn s (.variableDeclaration kind decls line)) ∧ VarOrigin v decls
  | [], v => by
    intro hv
    rw [walkStmts] at hv
    simp [emptyJsRec] at hv
  | s :: rest, v => by
    intro hv
    rw [walkStmts, append_vars] at hv
    rcases List.mem_append.mp hv with hv | hv
    · obtain ⟨kind, decls, line, hsin, horig⟩ := vars_origin_stmt s v hv
      exact ⟨kind, decls, line, ⟨s, List.mem_cons_self s rest, hsin⟩, horig⟩
    · obtain ⟨kind, decls, line, ⟨s2, hs2, hsin⟩, horig⟩ :=
        vars_origin_stmts rest v hv
      exact ⟨kind, decls, line, ⟨s2, List.mem_cons_of_mem _ hs2, hsin⟩, horig⟩

theorem vars_origin_stmt : ∀ (s : Stmt) (v : VariableEntry),
    v ∈ (walkStmt s).vars → ∃ kind decls line,
      SIn s (.variableDeclaration kind decls line) ∧ VarOrigin v decls
  | .importDeclaration src specs line, v => by
    intro hv
    simp [walkStmt, emptyJsRec] at hv
  | .exportNamedDeclaration decl specs line, v => by
    intro hv
    rw [walkStmt, append_vars] at hv
    rcases List.mem_append.mp hv with hv | hv
    · obtain ⟨kind, decls, dline, ⟨d, rfl, hsin⟩, horig⟩ :=
        vars_origin_optStmt decl v hv
      exact ⟨kind, decls, dline, OccIn.exportDecl specs line hsin, horig⟩
    · simp [emptyJsRec] at hv
  | .exportDefaultDeclaration d line, v => by
    intro hv
    rw [walkStmt, append_vars] at hv
    rcases List.mem_append.mp hv with hv | hv
    · rcases vars_origin_default d v hv with
        ⟨kind, decls, dline, ⟨e, rfl, hE⟩ | ⟨s, rfl, hS⟩, horig⟩
      · exact ⟨kind, decls, dline, OccIn.defaultExpr line hE, horig⟩
      · exact ⟨kind, decls, dline, OccIn.defaultStmt line hS, horig⟩
    · simp [emptyJsRec] at hv
  | .functionDeclaration id params isAsync isGen body line, v => by
    intro hv
    rw [walkStmt, append_vars] at hv
    rcases List.mem_append.mp hv with hv | hv
    · obtain ⟨kind, decls, dline, ⟨s, hs, hsin⟩, horig⟩ :=
        vars_origin_stmts body v hv
      exact ⟨kind, decls, dline,
        OccIn.fnBody id params isAsync isGen line hs hsin, horig⟩
    · simp [emptyJsRec] at hv
  | .classDeclaration id sup items children line, v => by
    intro hv
    rw [walkStmt, append_vars] at hv
    rcases List.mem_append.mp hv with hv | hv
    · obtain ⟨kind, decls, dline, ⟨s, hs, hsin⟩, horig⟩ :=
        vars_origin_stmts children v hv
      exact ⟨kind, decls, dline,
        OccIn.clsChild id sup items line hs hsin, horig⟩
    · simp [emptyJsRec] at hv
  | .variableDeclaration kind decls line, v => by
    intro hv
    rw [walkStmt, append_vars] at hv
    rcases List.mem_append.mp hv with hv | hv
    · obtain ⟨kind2, decls2, dline, ⟨d, hd, e, hde, hE⟩, horig⟩ :=
        vars_origin_decls decls v hv
      exact ⟨kind2, decls2, dline, OccIn.varInit kind line hd hde hE, horig⟩
    · refine ⟨kind, decls, line, OccIn.refl _, ?_⟩
      have hv2 : v ∈ declVarEntries kind decls line := hv
      obtain ⟨d, hd, heq⟩ := List.mem_filterMap.mp hv2
      obtain ⟨p, oe⟩ := d
      cases p with
      | otherP =>
        cases oe with
        | none => simp at heq
        | some e => simp at heq
      | identP nm =>
        cases oe with
        | none =>
          have hveq : v = ⟨nm, kind, line⟩ := by
            have := heq
            simp at this
            exact this.symm
          subst hveq
          exact ⟨(.identP nm, none), hd, rfl, fun e he => by cases he⟩
        | some e =>
          by_cases hfe : isFnInit e = true
          · simp [hfe] at heq
          · have hfe2 : isFnInit e = false := by
              cases hq : isFnInit e
              · rfl
              · exact absurd hq hfe
            have hveq : v = ⟨nm, kind, line⟩ := by
              have := heq
              simp [hfe2] at this
              exact this.symm
            subst hveq
            exact ⟨(.identP nm, some e), hd, rfl,
              fun e2 he2 => by cases he2; exact hfe2⟩
  | .otherStmt children, v => by
    intro hv
    rw [walkStmt] at hv
    obtain ⟨kind, decls, dline, ⟨s, hs, hsin⟩, horig⟩ :=
      vars_origin_stmts children v hv
    exact ⟨kind, decls, dline, OccIn.otherChild hs hsin, horig⟩

theorem vars_origin_optStmt : ∀ (o : Option Stmt) (v : VariableEntry),
    v ∈ (walkOptStmt o).vars → ∃ kind decls line,
      (∃ d, o = some d ∧ SIn d (.variableDeclaration kind decls line))
        ∧ VarOrigin v decls
  | none, v => by
    intro hv
    rw [walkOptStmt] at hv
    simp [emptyJsRec] at hv
  | some s, v => by
    intro hv
    rw [walkOptStmt] at hv
    obtain ⟨kind, decls, line, hsin, horig⟩ := vars_origin_stmt s v hv
    exact ⟨kind, decls, line, ⟨s, rfl, hsin⟩, horig⟩

theorem vars_origin_default : ∀ (d : Expr ⊕ Stmt) (v : VariableEntry),
    v ∈ (walkDefault d).vars → ∃ kind decls line,
      ((∃ e, d = .inl e ∧ EIn e (.variableDeclaration kind decls line))
        ∨ (∃ s, d = .inr s ∧ SIn s (.variableDeclaration kind decls line)))
        ∧ VarOrigin v decls
  | .inl e, v => by
    intro hv
    rw [walkDefault] at hv
    obtain ⟨kind, decls, line, hE, horig⟩ := vars_origin_expr e v hv
    exact ⟨kind, decls, line, Or.inl ⟨e, rfl, hE⟩, horig⟩
  | .inr s, v => by
    intro hv
    rw [walkDefault] at hv
    obtain ⟨kind, decls, line, hS, horig⟩ := vars_origin_stmt s v hv
    exact ⟨kind, decls, line, Or.inr ⟨s, rfl, hS⟩, horig⟩

theorem vars_origin_expr : ∀ (e : Expr) (v : VariableEntry),
    v ∈ (walkExpr e).vars → ∃ kind decls line,
      EIn e (.variableDeclaration kind decls line) ∧ VarOrigin v decls
  | .arrowFunctionExpression params isAsync body, v => by
    intro hv
    rw [walkExpr] at hv
    obtain ⟨kind, decls, line, ⟨s, hs, hsin⟩, horig⟩ :=
      vars_origin_stmts body v hv
    exact ⟨kind, decls, line, OccIn.arrowBody params isAsync hs hsin, horig⟩
  | .functionExpression id params isAsync body, v => by
    intro hv
    rw [walkExpr] at hv
    obtain ⟨kind, decls, line, ⟨s, hs, hsin⟩, horig⟩ :=
      vars_origin_stmts body v hv
    exact ⟨kind, decls, line, OccIn.fnExprBody id params isAsync hs hsin, horig⟩
  | .identifierE n, v => by
    intro hv
    rw [walkExpr] at hv
    simp [emptyJsRec] at hv
  | .otherExpr children, v => by
    intro hv
    rw [walkExpr] at hv
    obtain ⟨kind, decls, line, ⟨s, hs, hsin⟩, horig⟩ :=
      vars_origin_stmts children v hv
    exact ⟨kind, decls, line, OccIn.otherBody hs hsin, horig⟩

theorem vars_origin_decls : ∀ (ds : List (Pat × Option Expr)) (v : VariableEntry),
    v ∈ (walkDecls ds).vars → ∃ kind decls line,
      (∃ d ∈ ds, ∃ e, d.2 = some e
          ∧ EIn e (.variableDeclaration kind decls line))
        ∧ VarOrigin v decls
  | [], v => by
    intro hv
    rw [walkDecls] at hv
    simp [emptyJsRec] at hv
  | d :: rest, v => by
    intro hv
    rw [walkDecls, append_vars] at hv
    rcases List.mem_append.mp hv with hv | hv
    · obtain ⟨kind, decls, line, ⟨e, hde, hE⟩, horig⟩ :=
        vars_origin_optExpr d.2 v hv
      exact ⟨kind, decls, line, ⟨d, List.mem_cons_self d rest, e, hde, hE⟩, horig⟩
    · obtain ⟨kind, decls, line, ⟨d2, hd2, e, hde, hE⟩, horig⟩ :=
        vars_origin_decls rest v hv
      exact ⟨kind, decls, line, ⟨d2, List.mem_cons_of_mem _ hd2, e, hde, hE⟩, horig⟩

theorem vars_origin_optExpr : ∀ (o : Option Expr) (v : VariableEntry),
    v ∈ (walkOptExpr o).vars → ∃ kind decls line,
      (∃ e, o = some e ∧ EIn e (.variableDeclaration kind decls line))
        ∧ VarOrigin v decls
  | none, v => by
    intro hv
    rw [walkOptExpr] at hv
    simp [emptyJsRec] at hv
  | some e, v => by
    intro hv
    rw [walkOptExpr] at hv
    obtain ⟨kind, decls, line, hE, horig⟩ := vars_origin_expr e v hv
    exact ⟨kind, decls, line, ⟨e, rfl, hE⟩, horig⟩

end

/-- C9: a variable declarator with an identifier id and a function or
arrow initializer contributes a function record carrying the declarator's
name and the initializer's mapped parameter names (with the arrow flag),
wherever the declaration occurs in the tree; and the variables list only
ever receives identifier declarators without such an initializer. -/
theorem c9_var_initializer_functions (prog : List Stmt) :
    (∀ kind decls line,
      ProgIn prog (.variableDeclaration kind decls line) →
      ∀ d ∈ decls, ∀ nm e, d.1 = .identP nm → d.2 = some e → isFnInit e = true →
        ∃ f ∈ (parsedFacts prog).functions,
          f.name = nm ∧ f.params = (fnInitParams e).map paramName
            ∧ f.arrow = some (isArrowInit e))
    ∧ (∀ v ∈ (parsedFacts prog).vars, ∃ kind decls line,
        ProgIn prog (.variableDeclaration kind decls line)
          ∧ VarOrigin v decls) := by
  constructor
  · rintro kind decls line ⟨s, hs, hsin⟩ d hd nm e hdp hde hfe
    have hentry : (⟨nm, (fnInitParams e).map paramName, fnInitAsync e, none,
        some (isArrowInit e), line, false⟩ : FunctionEntry)
          ∈ declFnEntries decls line := by
      refine List.mem_filterMap.mpr ⟨d, hd, ?_⟩
      obtain ⟨p, oe⟩ := d
      have hp : p = .identP nm := hdp
      have hoe : oe = some e := hde
      subst hp
      subst hoe
      simp [hfe]
    have h1 : (⟨nm, (fnInitParams e).map paramName, fnInitAsync e, none,
        some (isArrowInit e), line, false⟩ : FunctionEntry)
          ∈ (walkStmt (.variableDeclaration kind decls line)).functions := by
      rw [walkStmt, append_functions]
      exact List.mem_append_right _ hentry
    have h2 := occIn_functions hsin _ h1
    simp only [Sum.elim_inl] at h2
    have h3 := mem_walkStmts_functions hs h2
    exact ⟨_, List.mem_map_of_mem _ h3, rfl, rfl, rfl⟩
  · intro v hv
    exact vars_origin_stmts prog v hv

theorem c9_var_initializer_functions_witness :
    ∃ f ∈ (parsedFacts [.variableDeclaration "const"
        [(.identP "go", some (.arrowFunctionExpression [.identPar "x"] false []))]
        1]).functions,
      f.name = "go" ∧ f.params = ["x"] ∧ f.arrow = some true :=
  (c9_var_initializer_functions [.variableDeclaration "const"
      [(.identP "go", some (.arrowFunctionExpression [.identPar "x"] false []))]
      1]).1
    "const" [(.identP "go", some (.arrowFunctionExpression [.identPar "x"] false []))]
    1 ⟨_, List.mem_cons_self _ _, OccIn.refl _⟩
    (.identP "go", some (.arrowFunctionExpression [.identPar "x"] false []))
    (List.mem_cons_self _ _) "go"
    (.arrowFunctionExpression [.identPar "x"] false []) rfl rfl rfl

end Briefly
